import Mathlib

/-!
# EvoSim — verification of the simulation core

A shallow embedding of the EvoSim evolutionary neural-network simulator
(`config.py`, `genome.py`, `neural_network.py`, `creature.py`, `world.py`,
`simulation.py`) together with proofs of the specification claims.

Modelling conventions:
* Python machine integers are modelled as `ℕ`/`ℤ` with explicit masking;
  genes are kept in their unsigned 32-bit view (`ℕ < 2^32`), which is the
  view the decoder's bit operations act on.
* Python floats are modelled as `ℚ`; the transcendental functions
  (`np.tanh`, `np.sin`, `np.exp`), which have no exact rational meaning,
  are threaded as explicit functional parameters.
* The numpy random generator is modelled as a deterministic stream of
  naturals with a cursor; every primitive (`integers`, `random`,
  `permutation`, `choice`) consumes draws from the single shared stream,
  mirroring the single shared `self.rng` of the source.
-/

namespace EvoSim

/-! ## config.py -/

def WORLD_WIDTH : ℤ := 128

def WORLD_HEIGHT : ℤ := 128

def POPULATION : ℕ := 1000

def MAX_GENERATIONS : ℕ := 1200

def STEPS_PER_GEN : ℕ := 300

def GENOME_SIZE : ℕ := 16

def MAX_INTERNAL_NEURONS : ℕ := 4

def MUTATION_RATE : ℚ := 1/1000

def WEIGHT_DIVISOR : ℚ := 8000

def NUM_SENSORS : ℕ := 14

def NUM_ACTIONS : ℕ := 8

def CENTER_RADIUS : ℤ := 20

def STRIP_WIDTH : ℤ := 32

def CORNER_SIZE : ℤ := 32

def RADIO_MAX_DOSE : ℚ := 1

def RADIO_FALLOFF : ℚ := 1/25

def KILL_ENABLED : Bool := false

/-! ## genome.py — gene codec -/

/-- A decoded gene (`decode_gene`'s result dict). -/
structure Conn where
  sourceType : ℕ
  sourceId : ℕ
  sinkType : ℕ
  sinkId : ℕ
  weight : ℚ
deriving Repr, DecidableEq

/-- Python `int()` applied to a float: truncation toward zero. -/
def pyTrunc (q : ℚ) : ℤ := if q < 0 then ⌈q⌉ else ⌊q⌋

/-- `genome.decode_gene`: unpack a 32-bit int into gene fields.
Genes are taken in their unsigned 32-bit view (the bit operations of the
source read exactly these 32 bits, whether the Python value is the
signed or the unsigned interpretation). -/
def decode_gene (gene : ℕ) : Conn :=
  let source_type := (gene >>> 31) &&& 0x1
  let source_id := (gene >>> 24) &&& 0x7F
  let sink_type := (gene >>> 23) &&& 0x1
  let sink_id := (gene >>> 16) &&& 0x7F
  let raw := gene &&& 0xFFFF
  let raw_weight : ℤ := if raw ≥ 0x8000 then (raw : ℤ) - 0x10000 else (raw : ℤ)
  let weight : ℚ := (raw_weight : ℚ) / WEIGHT_DIVISOR
  let source_id := if source_type = 0 then source_id % NUM_SENSORS
                   else source_id % max 1 MAX_INTERNAL_NEURONS
  let sink_id := if sink_type = 1 then sink_id % NUM_ACTIONS
                 else sink_id % max 1 MAX_INTERNAL_NEURONS
  ⟨source_type, source_id, sink_type, sink_id, weight⟩

/-- `genome.encode_gene`: pack gene fields back into a 32-bit int. -/
def encode_gene (source_type source_id sink_type sink_id : ℕ)
    (weight_float : ℚ) : ℕ :=
  let raw_weight : ℤ := pyTrunc (weight_float * WEIGHT_DIVISOR)
  let raw_weight : ℤ := max (-32768) (min 32767 raw_weight)
  let raw_weight : ℤ := if raw_weight < 0 then raw_weight + 0x10000 else raw_weight
  ((source_type &&& 0x1) <<< 31) |||
    ((source_id &&& 0x7F) <<< 24) |||
    ((sink_type &&& 0x1) <<< 23) |||
    ((sink_id &&& 0x7F) <<< 16) |||
    (raw_weight.toNat &&& 0xFFFF)

/-- Signed 32-bit reinterpretation of an unsigned 32-bit value (the
`astype(np.int32)` view under which genomes are stored). -/
def toInt32 (n : ℕ) : ℤ := if n ≥ 2 ^ 31 then (n : ℤ) - 2 ^ 32 else (n : ℤ)

/-- Number of ones in the binary expansion of a natural number
(`bin(x).count("1")` for a nonnegative `x`). -/
def countOnes : ℕ → ℕ
  | 0 => 0
  | n + 1 => (n + 1) % 2 + countOnes ((n + 1) / 2)

/-- Python `bin(x).count("1")`: for a negative int, `bin` renders the
sign-magnitude form, so the count is taken on the absolute value. -/
def pyBitCount (x : ℤ) : ℕ := countOnes x.natAbs

/-- Python `^` on two int32 values, acting on the unsigned views. -/
def pyXor32 (a b : ℕ) : ℤ := toInt32 (a ^^^ b)

/-- `genome.genome_similarity`: fraction of identical bits (0..1). -/
def genome_similarity (genome_a genome_b : List ℕ) : ℚ :=
  if genome_a = [] ∨ genome_b = [] then 0
  else
    let pairs := genome_a.zip genome_b
    let matching : ℕ := (pairs.map (fun p => 32 - pyBitCount (pyXor32 p.1 p.2))).sum
    let total_bits : ℕ := 32 * pairs.length
    if total_bits ≠ 0 then (matching : ℚ) / (total_bits : ℚ) else 1

/-! ## neural_network.py — brain builder -/

/-- `NeuralNetwork._parse_genome`: decode each gene into a connection. -/
def parse_genome (genome : List ℕ) : List Conn := genome.map (fun g => decode_gene g)

/-- One update of the `useful` set by a single connection: the body of the
inner `for c in connections` loop of `_prune_dead_ends`. -/
def usefulStepOne (u : Finset ℕ) (c : Conn) : Finset ℕ :=
  if c.sinkType = 1 then
    (if c.sourceType = 1 then insert c.sourceId u else u)
  else if c.sinkType = 0 ∧ c.sinkId ∈ u then
    (if c.sourceType = 1 then insert c.sourceId u else u)
  else u

/-- One full scan of the connection list (one iteration of the
`while changed` loop of `_prune_dead_ends`); updates made earlier in the
scan are visible to later connections, as in the source. -/
def usefulStep (conns : List Conn) (useful : Finset ℕ) : Finset ℕ :=
  conns.foldl usefulStepOne useful

/-- The `useful` set at the fixpoint of the `while changed` loop.  Each
non-fixpoint scan adds at least one source id taken from the connection
list, so `conns.length + 1` scans always reach the fixpoint. -/
def usefulSet (conns : List Conn) : Finset ℕ :=
  (usefulStep conns)^[conns.length + 1] ∅

/-- `NeuralNetwork._prune_dead_ends`: keep every connection sinking into an
action, and an internal-sink connection only if its sink is useful. -/
def pruneDeadEnds (conns : List Conn) : List Conn :=
  conns.filter (fun c => c.sinkType == 1 || decide (c.sinkId ∈ usefulSet conns))

/-- The connection list built at brain construction
(`NeuralNetwork.__init__`): decode, then prune dead ends. -/
def buildConnections (genome : List ℕ) : List Conn :=
  pruneDeadEnds (parse_genome genome)

/-- The backward-reachable "useful" internal neurons, as described by the
spec: an internal id is useful if some internal-sourced connection from it
sinks into an action, or into a useful internal. -/
inductive Useful (conns : List Conn) : ℕ → Prop
  | direct {c : Conn} : c ∈ conns → c.sourceType = 1 → c.sinkType = 1 →
      Useful conns c.sourceId
  | chain {c : Conn} : c ∈ conns → c.sourceType = 1 → c.sinkType = 0 →
      Useful conns c.sinkId → Useful conns c.sourceId

/-! ## neural_network.py — forward pass

The activation `np.tanh` is a float transcendental with no exact rational
meaning; the forward pass is therefore parametrised by the activation
function `σ`. -/

/-- The value read from a connection's source: a sensor reading, or the
previous internal activation. -/
def srcVal (inputs ivals : ℕ → ℚ) (c : Conn) : ℚ :=
  if c.sourceType = 0 then inputs c.sourceId else ivals c.sourceId

/-- Total weighted input accumulated into internal neuron `j` during one
iteration of the propagation loop of `NeuralNetwork.forward`. -/
def internalAcc (conns : List Conn) (inputs ivals : ℕ → ℚ) (j : ℕ) : ℚ :=
  ((conns.filter (fun c => c.sinkType == 0 && c.sinkId == j)).map
    (fun c => srcVal inputs ivals c * c.weight)).sum

/-- One iteration of the internal-propagation loop: accumulate, then apply
the activation elementwise. -/
def internalPass (σ : ℚ → ℚ) (conns : List Conn) (inputs ivals : ℕ → ℚ) : ℕ → ℚ :=
  fun j => σ (internalAcc conns inputs ivals j)

/-- Total weighted input accumulated into action neuron `k`. -/
def actionAcc (conns : List Conn) (inputs ivals : ℕ → ℚ) (k : ℕ) : ℚ :=
  ((conns.filter (fun c => c.sinkType == 1 && c.sinkId == k)).map
    (fun c => srcVal inputs ivals c * c.weight)).sum

/-- `NeuralNetwork.forward`: zero the state, run the internal propagation
twice, then fire the action neurons. -/
def forward (σ : ℚ → ℚ) (conns : List Conn) (inputs : ℕ → ℚ) : List ℚ :=
  let iv0 : ℕ → ℚ := fun _ => 0
  let iv1 := internalPass σ conns inputs iv0
  let iv2 := internalPass σ conns inputs iv1
  (List.range NUM_ACTIONS).map (fun k => σ (actionAcc conns inputs iv2 k))

/-! ## creature.py — action selection -/

/-- The 8 compass directions `DIRS` (dx, dy). -/
def DIRS : List (ℤ × ℤ) := [(1,0),(1,1),(0,1),(-1,1),(-1,0),(-1,-1),(0,-1),(1,-1)]

/-- The action-selection loop of `Creature.step`: scan the activations in
order, remembering the first index whose magnitude strictly exceeds the
running best (initially the threshold). -/
def chooseActionAux : List ℚ → ℕ → Option ℕ → ℚ → Option ℕ
  | [], _, best_act, _ => best_act
  | v :: rest, i, best_act, best_val =>
    if |v| > best_val then chooseActionAux rest (i + 1) (some i) |v|
    else chooseActionAux rest (i + 1) best_act best_val

/-- `Creature.step`'s choice of action: the index of the activation with
the largest magnitude strictly above the threshold `0.1`, or none. -/
def chooseAction (actions : List ℚ) : Option ℕ :=
  chooseActionAux actions 0 none (1/10)

/-! ## creature.py / world.py — state

Creatures are kept in an arena (the per-generation creature list); the
grid stores arena indices, mirroring the Python object references. -/

/-- Python `(1 if d > 0 else (-1 if d < 0 else 0))`. -/
def pySign (d : ℤ) : ℤ := if d > 0 then 1 else if d < 0 then -1 else 0

/-- Per-creature state (`Creature.__slots__`, minus the display colour,
which has no lifecycle effect).  The oscillator phase is kept as the
number of `2π/30` increments taken so far. -/
structure Creature where
  x : ℤ
  y : ℤ
  genome : List ℕ
  conns : List Conn
  alive : Bool
  age : ℕ
  lastDir : ℕ
  radiationDose : ℚ
  oscPhase : ℕ
deriving Repr, DecidableEq

/-- `Creature.__init__` with an explicit genome. -/
def Creature.new (x y : ℤ) (genome : List ℕ) : Creature :=
  ⟨x, y, genome, buildConnections genome, true, 0, 0, 0, 0⟩

/-- The world grid plus the creature arena of the current generation. -/
structure WorldState where
  width : ℤ
  height : ℤ
  grid : ℤ → ℤ → Option ℕ
  agents : List Creature
  worldCreatures : List ℕ
  murderCount : ℕ

/-- Point update of the grid function (`self._grid[y][x] = v`). -/
def gridUpdate (g : ℤ → ℤ → Option ℕ) (y x : ℤ) (v : Option ℕ) : ℤ → ℤ → Option ℕ :=
  fun y' x' => if y' = y ∧ x' = x then v else g y' x'

/-- `World._in_bounds`. -/
def inBounds (s : WorldState) (x y : ℤ) : Prop :=
  0 ≤ x ∧ x < s.width ∧ 0 ≤ y ∧ y < s.height

instance (s : WorldState) (x y : ℤ) : Decidable (inBounds s x y) := by
  unfold inBounds
  infer_instance

/-- `World.place_creature`: put creature `c` at its stored `(x, y)` if the
cell is free. -/
def place_creature (s : WorldState) (c : ℕ) : WorldState × Bool :=
  match s.agents[c]? with
  | none => (s, false)
  | some cr =>
    if inBounds s cr.x cr.y then
      if s.grid cr.y cr.x = none then
        ({s with grid := gridUpdate s.grid cr.y cr.x (some c)}, true)
      else (s, false)
    else (s, false)

/-- `World.remove_creature`. -/
def remove_creature (s : WorldState) (c : ℕ) : WorldState :=
  match s.agents[c]? with
  | none => s
  | some cr =>
    if inBounds s cr.x cr.y then
      if s.grid cr.y cr.x = some c then
        {s with grid := gridUpdate s.grid cr.y cr.x none}
      else s
    else s

/-- `World.move_creature`: clamp the target at the walls, fail on a wall
block or an occupied cell, otherwise move and update the heading to the
first direction matching the sign pair of `(dx, dy)`. -/
def move_creature (s : WorldState) (c : ℕ) (dx dy : ℤ) : WorldState × Bool :=
  match s.agents[c]? with
  | none => (s, false)
  | some cr =>
    let nx := max 0 (min (s.width - 1) (cr.x + dx))
    let ny := max 0 (min (s.height - 1) (cr.y + dy))
    if nx = cr.x ∧ ny = cr.y then (s, false)
    else if s.grid ny nx ≠ none then (s, false)
    else
      let g1 := gridUpdate s.grid cr.y cr.x none
      let g2 := gridUpdate g1 ny nx (some c)
      let newDir :=
        if dx ≠ 0 ∨ dy ≠ 0 then
          match DIRS.findIdx? (fun d => d.1 == pySign dx && d.2 == pySign dy) with
          | some i => i
          | none => cr.lastDir
        else cr.lastDir
      ({s with grid := g2,
               agents := s.agents.set c {cr with x := nx, y := ny, lastDir := newDir}}, true)

/-- `World.kill_creature_at`. -/
def kill_creature_at (s : WorldState) (x y : ℤ) : WorldState :=
  if inBounds s x y then
    match s.grid y x with
    | none => s
    | some v =>
      match s.agents[v]? with
      | none => s
      | some victim =>
        if victim.alive then
          {s with agents := s.agents.set v {victim with alive := false},
                  grid := gridUpdate s.grid y x none,
                  murderCount := s.murderCount + 1}
        else s
  else s

/-- `World.get_creature`. -/
def get_creature (s : WorldState) (x y : ℤ) : Option ℕ :=
  if inBounds s x y then s.grid y x else none

/-- Offsets `-radius .. radius`. -/
def offsets (radius : ℕ) : List ℤ :=
  (List.range (2 * radius + 1)).map (fun i => (i : ℤ) - (radius : ℤ))

/-- `World.local_density`: occupied cells in the square neighbourhood,
excluding the centre. -/
def local_density (s : WorldState) (cx cy : ℤ) (radius : ℕ) : ℕ :=
  ((offsets radius).map (fun dy =>
    ((offsets radius).filter (fun dx =>
      !(dx == 0 && dy == 0) &&
        decide (inBounds s (cx + dx) (cy + dy)) &&
        decide (s.grid (cy + dy) (cx + dx) ≠ none))).length)).sum

/-- `World.forward_density_gradient`: occupied count over 5 cells ahead
minus 5 cells behind, divided by 5. -/
def forward_density_gradient (s : WorldState) (cx cy : ℤ) (dirIdx : ℕ) : ℚ :=
  let d := DIRS.getD dirIdx (0, 0)
  let fwd := ((List.range 5).map (fun k => (k : ℤ) + 1)).countP (fun step =>
    decide (inBounds s (cx + d.1 * step) (cy + d.2 * step)) &&
      decide (s.grid (cy + d.2 * step) (cx + d.1 * step) ≠ none))
  let bwd := ((List.range 5).map (fun k => (k : ℤ) + 1)).countP (fun step =>
    decide (inBounds s (cx - d.1 * step) (cy - d.2 * step)) &&
      decide (s.grid (cy - d.2 * step) (cx - d.1 * step) ≠ none))
  ((fwd : ℚ) - (bwd : ℚ)) / 5

/-! ## C2 / C3: grid invariants -/

/-- A sequence of the three occupancy operations of the claim. -/
inductive WOp
  | place (c : ℕ)
  | move (c : ℕ) (dx dy : ℤ)
  | remove (c : ℕ)

def applyWOp (s : WorldState) : WOp → WorldState
  | WOp.place c => (place_creature s c).1
  | WOp.move c dx dy => (move_creature s c dx dy).1
  | WOp.remove c => remove_creature s c

def applyWOps (s : WorldState) (ops : List WOp) : WorldState :=
  ops.foldl applyWOp s

/-- A world with an empty grid over an arbitrary creature arena. -/
def emptyWorld (w h : ℤ) (agents : List Creature) : WorldState :=
  ⟨w, h, fun _ _ => none, agents, [], 0⟩

/-- The grid invariant: every cell that references an agent points at an
arena entry whose stored coordinates are exactly that cell. -/
def GridInv (s : WorldState) : Prop :=
  ∀ x y c, s.grid y x = some c →
    ∃ cr, s.agents[c]? = some cr ∧ cr.x = x ∧ cr.y = y

/-- A 4×4 world holding one creature at the origin. -/
def testWorld : WorldState :=
  ⟨4, 4, fun y x => if y = 0 ∧ x = 0 then some 0 else none,
    [Creature.new 0 0 [5]], [0], 0⟩

/-! ## Randomness and numeric environment

`np.random.default_rng(seed)` is a deterministic pseudo-random stream
fixed by the seed.  It is modelled as an abstract stream of naturals with
a cursor; each primitive consumes draws from the single shared stream,
exactly one generator per simulation (`self.rng = self.world.rng`). -/

structure Rng where
  stream : ℕ → ℕ
  pos : ℕ

/-- Consume one raw draw. -/
def Rng.next (r : Rng) : ℕ × Rng := (r.stream r.pos, ⟨r.stream, r.pos + 1⟩)

/-- `rng.integers(0, n)`: one uniform draw below `n`. -/
def Rng.integersBelow (r : Rng) (n : ℕ) : ℕ × Rng :=
  let (v, r') := r.next
  (v % max 1 n, r')

/-- `rng.random()`: one uniform draw in `[0, 1)`. -/
def Rng.randFloat (r : Rng) : ℚ × Rng :=
  let (v, r') := r.next
  (((v % 1000000 : ℕ) : ℚ) / 1000000, r')

/-- Selection-without-replacement driven by the stream: the model of
`rng.permutation(n)` (and, by truncation, of `rng.choice` without
replacement). -/
def rngPermAux : ℕ → List ℕ → Rng → List ℕ × Rng
  | 0, _, r => ([], r)
  | k + 1, avail, r =>
    let (v, r') := r.next
    let idx := v % max 1 avail.length
    let chosen := avail.getD idx 0
    let (rest, r'') := rngPermAux k (avail.eraseIdx idx) r'
    (chosen :: rest, r'')

/-- `rng.permutation(n)`. -/
def Rng.permutation (r : Rng) (n : ℕ) : List ℕ × Rng :=
  rngPermAux n (List.range n) r

/-- `rng.choice(n, k, replace=False)`. -/
def Rng.choiceNoReplace (r : Rng) (n k : ℕ) : List ℕ × Rng :=
  let (p, r') := r.permutation n
  (p.take k, r')

/-- The float transcendentals used by the source (`np.tanh`, the
oscillator `(sin(k·2π/30)+1)/2` sampled at the k-th increment, and
`np.exp`), threaded as abstract rational functions. -/
structure NumEnv where
  tanh : ℚ → ℚ
  sinOsc : ℕ → ℚ
  exp : ℚ → ℚ

/-! ## creature.py — sensing and acting -/

/-- `Creature._sense`: the 14 sensor inputs.  Consumes one random draw
(input 3) and advances the oscillator phase; returns the updated creature
state. -/
def sense (env : NumEnv) (s : WorldState) (cr : Creature) (rng : Rng) :
    List ℚ × Creature × Rng :=
  let W := s.width
  let H := s.height
  let (rnd, rng') := rng.randFloat
  let cr' := {cr with oscPhase := cr.oscPhase + 1}
  let d := DIRS.getD cr.lastDir (0, 0)
  let ahead := get_creature s (cr.x + d.1) (cr.y + d.2)
  let i9 : ℚ := match ahead with
    | none => 0
    | some j => match s.agents[j]? with
      | none => 0
      | some o => genome_similarity cr.genome o.genome
  ([(cr.x : ℚ) / ((W : ℚ) - 1),
    (cr.y : ℚ) / ((H : ℚ) - 1),
    (cr.age : ℚ) / ((max 1 (STEPS_PER_GEN - 1) : ℕ) : ℚ),
    rnd,
    env.sinOsc cr'.oscPhase,
    1 - ((min cr.x (W - 1 - cr.x) : ℤ) : ℚ) / ((W : ℚ) / 2),
    1 - ((min cr.y (H - 1 - cr.y) : ℤ) : ℚ) / ((H : ℚ) / 2),
    min 1 ((local_density s cr.x cr.y 2 : ℚ) / 8),
    forward_density_gradient s cr.x cr.y cr.lastDir,
    i9,
    ((d.1 : ℚ) + 1) / 2,
    ((d.2 : ℚ) + 1) / 2,
    (if ahead.isSome then 1 else 0),
    1], cr', rng')

/-- Update the stored state of agent `c`. -/
def setAgent (s : WorldState) (c : ℕ) (cr : Creature) : WorldState :=
  {s with agents := s.agents.set c cr}

/-- `Creature._execute_action`. -/
def execute_action (env : NumEnv) (s : WorldState) (c : ℕ)
    (actionId : ℕ) (strength : ℚ) (rng : Rng) : WorldState × Rng :=
  match s.agents[c]? with
  | none => (s, rng)
  | some cr =>
    if actionId = 0 then
      let dx : ℤ := if strength > 0 then 1 else -1
      ((move_creature s c dx 0).1, rng)
    else if actionId = 1 then
      let dy : ℤ := if strength > 0 then 1 else -1
      ((move_creature s c 0 dy).1, rng)
    else if actionId = 2 then
      let (dnum, rng') := rng.integersBelow 8
      let d := DIRS.getD dnum (0, 0)
      let (s', ok) := move_creature s c d.1 d.2
      if ok then
        (match s'.agents[c]? with
         | none => s'
         | some cr2 => setAgent s' c {cr2 with lastDir := dnum}, rng')
      else (s', rng')
    else if actionId = 3 then
      let d := DIRS.getD cr.lastDir (0, 0)
      ((move_creature s c d.1 d.2).1, rng)
    else if actionId = 4 then
      let nd := (((cr.lastDir : ℤ) - 1).emod 8).toNat
      let s1 := setAgent s c {cr with lastDir := nd}
      let d := DIRS.getD nd (0, 0)
      ((move_creature s1 c d.1 d.2).1, rng)
    else if actionId = 5 then
      let nd := (((cr.lastDir : ℤ) + 1).emod 8).toNat
      let s1 := setAgent s c {cr with lastDir := nd}
      let d := DIRS.getD nd (0, 0)
      ((move_creature s1 c d.1 d.2).1, rng)
    else if actionId = 6 then
      let nd := (((cr.lastDir : ℤ) + 4).emod 8).toNat
      let s1 := setAgent s c {cr with lastDir := nd}
      let d := DIRS.getD nd (0, 0)
      ((move_creature s1 c d.1 d.2).1, rng)
    else if actionId = 7 then
      (if KILL_ENABLED then
        let d := DIRS.getD cr.lastDir (0, 0)
        kill_creature_at s (cr.x + d.1) (cr.y + d.2)
      else s, rng)
    else (s, rng)

/-- `Creature.step`: sense → think → act (no-op when dead). -/
def stepCreature (env : NumEnv) (s : WorldState) (c : ℕ) (rng : Rng) :
    WorldState × Rng :=
  match s.agents[c]? with
  | none => (s, rng)
  | some cr =>
    if cr.alive then
      let cr1 := {cr with age := cr.age + 1}
      let (inputs, cr2, rng1) := sense env s cr1 rng
      let s1 := setAgent s c cr2
      let actions := forward env.tanh cr.conns (fun i => inputs.getD i 0)
      match chooseAction actions with
      | none => (s1, rng1)
      | some best => execute_action env s1 c best (actions.getD best 0) rng1
    else (s, rng)

/-! ## world.py — populate -/

/-- All cell coordinates, row by row, as in `World.populate`. -/
def allPositions (w h : ℤ) : List (ℤ × ℤ) :=
  ((List.range h.toNat).map (fun y =>
    (List.range w.toNat).map (fun x => ((x : ℤ), (y : ℤ))))).flatten

/-- Assign shuffled positions to the creatures in order; creatures beyond
grid capacity keep their coordinates and are not placed. -/
def populateGo : List Creature → ℕ → List (ℤ × ℤ) → (ℤ → ℤ → Option ℕ) →
    List Creature × (ℤ → ℤ → Option ℕ) × ℕ
  | [], _, _, g => ([], g, 0)
  | cr :: rest, i, [], g => (cr :: rest, g, 0)
  | cr :: rest, i, p :: ptail, g =>
    let cr' := {cr with x := p.1, y := p.2}
    let g' := gridUpdate g p.2 p.1 (some i)
    let (restOut, gOut, cnt) := populateGo rest (i + 1) ptail g'
    (cr' :: restOut, gOut, cnt + 1)

/-- `World.populate`: clear, shuffle all positions, place the creatures of
the arena in order. -/
def populate (s : WorldState) (rng : Rng) : WorldState × Rng :=
  let positions := allPositions s.width s.height
  let (perm, rng') := rng.permutation positions.length
  let shuffled := perm.map (fun i => positions.getD i (0, 0))
  let (agents', grid', placed) := populateGo s.agents 0 shuffled (fun _ _ => none)
  ({s with grid := grid', agents := agents',
           worldCreatures := List.range placed, murderCount := 0}, rng')

/-! ## simulation.py — generation controller -/

structure SimConfig where
  population : ℕ
  maxGenerations : ℕ
  stepsPerGen : ℕ
  genomeSize : ℕ
  mutationRate : ℚ
  selectionMode : String
  worldWidth : ℤ
  worldHeight : ℤ
deriving Repr, DecidableEq

/-- Per-generation statistics (`Simulation._compute_stats`, plus the
elapsed time added by the run loop). -/
structure GenStats where
  generation : ℕ
  population : ℕ
  survivors : ℕ
  alive : ℕ
  survivalPct : ℚ
  murdered : ℕ
  diversity : ℚ
  elapsed : ℚ
deriving Repr, DecidableEq

/-- `Simulation._select`: survivor ids by the active mode. -/
def selectSurvivors (mode : String) (s : WorldState) : List ℕ :=
  (List.range s.agents.length).filter (fun i =>
    match s.agents[i]? with
    | none => false
    | some c =>
      c.alive &&
        (if mode = "east" then decide (c.x ≥ s.width / 2)
         else if mode = "west" then decide (c.x < s.width / 2)
         else if mode = "west_east" then
           decide (c.x < STRIP_WIDTH ∨ c.x ≥ s.width - STRIP_WIDTH)
         else if mode = "corners" then
           decide ((c.x < CORNER_SIZE ∨ c.x ≥ s.width - CORNER_SIZE) ∧
             (c.y < CORNER_SIZE ∨ c.y ≥ s.height - CORNER_SIZE))
         else if mode = "center" then
           decide ((c.x - s.width / 2) ^ 2 + (c.y - s.height / 2) ^ 2
             ≤ CENTER_RADIUS ^ 2)
         else true))

/-- `Simulation._apply_radiation`. -/
def applyRadiation (env : NumEnv) (stepsPerGen : ℕ) (s : WorldState)
    (step : ℕ) : WorldState :=
  let W := s.width
  let westActive := step < stepsPerGen / 2
  (List.range s.agents.length).foldl (fun s i =>
    match s.agents[i]? with
    | none => s
    | some cr =>
      if cr.alive then
        let dist : ℤ := if westActive then cr.x else W - 1 - cr.x
        let dose := cr.radiationDose + env.exp (-(RADIO_FALLOFF) * (dist : ℚ)) * (1/100)
        if dose > RADIO_MAX_DOSE then
          remove_creature (setAgent s i {cr with radiationDose := dose, alive := false}) i
        else setAgent s i {cr with radiationDose := dose}
      else s) s

/-- Pairwise dissimilarity sum and pair count over a creature sample. -/
def diversityPairs : List Creature → ℚ × ℕ
  | [] => (0, 0)
  | c :: rest =>
    let here := (rest.map (fun d => 1 - genome_similarity c.genome d.genome)).sum
    let (t, n) := diversityPairs rest
    (here + t, rest.length + n)

/-- `Simulation._genetic_diversity`. -/
def geneticDiversity (creatures : List Creature) (rng : Rng) : ℚ × Rng :=
  if creatures.length < 2 then (0, rng)
  else
    let sampleSize := min 50 creatures.length
    let (idx, rng') := rng.choiceNoReplace creatures.length sampleSize
    let sampled := idx.filterMap (fun i => creatures[i]?)
    let (total, count) := diversityPairs sampled
    (if count ≠ 0 then total / (count : ℚ) else 0, rng')

/-- `Simulation._compute_stats` (elapsed filled in by the run loop). -/
def computeStats (generation : ℕ) (s : WorldState) (survivors : List Creature)
    (rng : Rng) : GenStats × Rng :=
  let nPop := s.agents.length
  let nSurv := survivors.length
  let nAlive := (s.agents.filter (fun c => c.alive)).length
  let (dv, rng') := geneticDiversity survivors rng
  ({generation := generation, population := nPop, survivors := nSurv,
    alive := nAlive,
    survivalPct := 100 * (nSurv : ℚ) / ((max 1 nPop : ℕ) : ℚ),
    murdered := s.murderCount, diversity := dv, elapsed := 0}, rng')

/-- One simulation step: the per-step loop body of
`Simulation._run_one_generation` (radiation, then every live creature in a
fresh random order). -/
def runOneStep (env : NumEnv) (cfg : SimConfig) (s : WorldState) (step : ℕ)
    (rng : Rng) : WorldState × Rng :=
  let s0 := if cfg.selectionMode = "radioactive"
    then applyRadiation env cfg.stepsPerGen s step else s
  let (order, rng1) := rng.permutation s0.agents.length
  order.foldl (fun (acc : WorldState × Rng) idx =>
    stepCreature env acc.1 idx acc.2) (s0, rng1)

/-- `Simulation._run_one_generation`: build creatures, populate, run the
steps, select, and compute statistics.  Returns the survivor creatures,
the statistics record and the advanced rng. -/
def runOneGeneration (env : NumEnv) (cfg : SimConfig) (generation : ℕ)
    (genomes : List (List ℕ)) (rng : Rng) : List Creature × GenStats × Rng :=
  let creatures := genomes.map (fun g => Creature.new 0 0 g)
  let s0 : WorldState :=
    ⟨cfg.worldWidth, cfg.worldHeight, fun _ _ => none, creatures, [], 0⟩
  let (s1, rng1) := populate s0 rng
  let (s2, rng2) := (List.range cfg.stepsPerGen).foldl
    (fun (acc : WorldState × Rng) step => runOneStep env cfg acc.1 step acc.2)
    (s1, rng1)
  let survivorIds := selectSurvivors cfg.selectionMode s2
  let survivors := survivorIds.filterMap (fun i => s2.agents[i]?)
  let (stats, rng3) := computeStats generation s2 survivors rng2
  (survivors, stats, rng3)

/-- `genome.random_genome`: `size` uniform 32-bit draws. -/
def random_genome (size : ℕ) (rng : Rng) : List ℕ × Rng :=
  match size with
  | 0 => ([], rng)
  | k + 1 =>
    let v := rng.next
    let rest := random_genome k v.2
    ((v.1 % 2 ^ 32) :: rest.1, rest.2)

/-- A batch of `n` fresh random genomes (the extinction restart of
`Simulation._reproduce` and the seeding of generation 0 in `run`). -/
def randomGenomeBatch (n size : ℕ) (rng : Rng) : List (List ℕ) × Rng :=
  match n with
  | 0 => ([], rng)
  | k + 1 =>
    let g := random_genome size rng
    let rest := randomGenomeBatch k size g.2
    (g.1 :: rest.1, rest.2)

/-- `genome.mutate_genome` on one gene: flip each of the 32 bits with
probability `rate`. -/
def mutateGene (g : ℕ) (rate : ℚ) (rng : Rng) : ℕ × Rng :=
  let (g', rng') := (List.range 32).foldl (fun (acc : ℕ × Rng) bit =>
    let (v, r') := acc.2.randFloat
    (if v < rate then acc.1 ^^^ (1 <<< bit) else acc.1, r')) (g % 2 ^ 32, rng)
  (g' % 2 ^ 32, rng')

/-- `genome.mutate_genome`. -/
def mutate_genome (genome : List ℕ) (rate : ℚ) (rng : Rng) : List ℕ × Rng :=
  match genome with
  | [] => ([], rng)
  | g :: rest =>
    let (g', rng') := mutateGene g rate rng
    let (rest', rng'') := mutate_genome rest rate rng'
    (g' :: rest', rng'')

/-- `genome.crossover`: one split point in `[0, size]`, prefix of A,
suffix of B. -/
def crossover (genome_a genome_b : List ℕ) (rng : Rng) : List ℕ × Rng :=
  let size := genome_a.length
  let (split, rng') := rng.integersBelow (size + 1)
  (genome_a.take split ++ genome_b.drop split, rng')

/-- The breeding loop of `Simulation._reproduce`: `n` children by random
pairing, crossover, then mutation. -/
def reproduceGo (cfg : SimConfig) (survivors : List Creature) :
    ℕ → Rng → List (List ℕ) × Rng
  | 0, rng => ([], rng)
  | k + 1, rng =>
    let n := survivors.length
    let (ia, rng1) := rng.integersBelow n
    let (ib, rng2) := rng1.integersBelow n
    let pa := ((survivors[ia]?).map Creature.genome).getD []
    let pb := ((survivors[ib]?).map Creature.genome).getD []
    let (child, rng3) := crossover pa pb rng2
    let (child', rng4) := mutate_genome child cfg.mutationRate rng3
    let (rest, rng5) := reproduceGo cfg survivors k rng4
    (child' :: rest, rng5)

/-- `Simulation._reproduce`: an entirely fresh random batch on extinction,
otherwise exactly `population` bred genomes. -/
def reproduce (cfg : SimConfig) (survivors : List Creature) (rng : Rng) :
    List (List ℕ) × Rng :=
  if survivors = [] then randomGenomeBatch cfg.population cfg.genomeSize rng
  else reproduceGo cfg survivors cfg.population rng

/-- The wall clock (`time.time()` readings), an input oracle of the run
loop only. -/
structure Clock where
  readings : ℕ → ℚ
  pos : ℕ

def Clock.read (c : Clock) : ℚ × Clock := (c.readings c.pos, ⟨c.readings, c.pos + 1⟩)

/-- Model of Python `round(x, 3)` (the float half-even detail is
abstracted; the elapsed field takes no part in any other computation). -/
def pyRound3 (q : ℚ) : ℚ := (⌊q * 1000 + 1 / 2⌋ : ℤ) / 1000

/-- `Simulation._run_all_generations`, fuelled by the remaining generation
count: run one generation, stamp the elapsed time, stop at extinction,
otherwise breed and continue. -/
def runAllGenerationsAux (env : NumEnv) (cfg : SimConfig) :
    ℕ → ℕ → List (List ℕ) → Rng → Clock → List GenStats × Rng × Clock
  | 0, _, _, rng, clk => ([], rng, clk)
  | n + 1, genIdx, genomes, rng, clk =>
    let t0 := clk.read
    let res := runOneGeneration env cfg genIdx genomes rng
    let t1 := t0.2.read
    let stats' := {res.2.1 with elapsed := pyRound3 (t1.1 - t0.1)}
    if res.1 = [] then ([stats'], res.2.2, t1.2)
    else
      let next := reproduce cfg res.1 res.2.2
      let rest := runAllGenerationsAux env cfg n (genIdx + 1) next.1 next.2 t1.2
      (stats' :: rest.1, rest.2)

def runAllGenerations (env : NumEnv) (cfg : SimConfig)
    (initialGenomes : List (List ℕ)) (rng : Rng) (clk : Clock) :
    List GenStats × Rng × Clock :=
  runAllGenerationsAux env cfg cfg.maxGenerations 0 initialGenomes rng clk

/-- `Simulation.run`: seed generation 0 with random creatures, then run
all generations. -/
def runSimulation (env : NumEnv) (cfg : SimConfig) (rng : Rng) (clk : Clock) :
    List GenStats × Rng × Clock :=
  let (genomes, rng1) := randomGenomeBatch cfg.population cfg.genomeSize rng
  runAllGenerations env cfg genomes rng1 clk

/-- The GenerationStats values named by the reproducibility requirement
(everything except the wall-clock elapsed time). -/
def statsKey (st : GenStats) : ℕ × ℕ × ℕ × ℕ × ℚ × ℕ × ℚ :=
  (st.generation, st.population, st.survivors, st.alive, st.survivalPct,
    st.murdered, st.diversity)

/-- The all-zero numeric environment and stream used for the concrete
extinction run: every activation is 0, so no creature ever moves. -/
def zeroEnv : NumEnv := ⟨fun _ => 0, fun _ => 0, fun _ => 0⟩

/-- One creature, three requested generations, one step per generation, a
4×4 world, eastern-half selection. -/
def extinctionCfg : SimConfig := ⟨1, 3, 1, 1, 0, "east", 4, 4⟩

def zeroRng : Rng := ⟨fun _ => 0, 0⟩

def zeroClock : Clock := ⟨fun _ => 0, 0⟩

/-! ## Theorems -/

theorem subset_usefulStepOne (u : Finset ℕ) (c : Conn) : u ⊆ usefulStepOne u c := by
  unfold usefulStepOne
  split
  · split
    · exact Finset.subset_insert _ _
    · exact Finset.Subset.refl _
  · split
    · split
      · exact Finset.subset_insert _ _
      · exact Finset.Subset.refl _
    · exact Finset.Subset.refl _

theorem subset_foldl_usefulStepOne (l : List Conn) :
    ∀ u : Finset ℕ, u ⊆ l.foldl usefulStepOne u := by
  induction l with
  | nil => intro u; exact Finset.Subset.refl _
  | cons c t ih =>
    intro u
    exact (subset_usefulStepOne u c).trans (ih (usefulStepOne u c))

theorem mem_usefulStepOne_elim {u : Finset ℕ} {c : Conn} {x : ℕ}
    (hx : x ∈ usefulStepOne u c) : x ∈ u ∨ x = c.sourceId := by
  unfold usefulStepOne at hx
  split at hx
  · split at hx
    · rcases Finset.mem_insert.mp hx with h | h
      · exact Or.inr h
      · exact Or.inl h
    · exact Or.inl hx
  · split at hx
    · split at hx
      · rcases Finset.mem_insert.mp hx with h | h
        · exact Or.inr h
        · exact Or.inl h
      · exact Or.inl hx
    · exact Or.inl hx

theorem mem_foldl_usefulStepOne_elim (l : List Conn) :
    ∀ (u : Finset ℕ) (x : ℕ), x ∈ l.foldl usefulStepOne u →
      x ∈ u ∨ ∃ c ∈ l, x = c.sourceId := by
  induction l with
  | nil => intro u x hx; exact Or.inl hx
  | cons c t ih =>
    intro u x hx
    rcases ih (usefulStepOne u c) x hx with h | ⟨d, hd, hdx⟩
    · rcases mem_usefulStepOne_elim h with h' | h'
      · exact Or.inl h'
      · exact Or.inr ⟨c, List.mem_cons_self c t, h'⟩
    · exact Or.inr ⟨d, List.mem_cons_of_mem c hd, hdx⟩

/-- Every iterate of the scan starting from `∅` stays inside the finite set
of source ids occurring in the connection list. -/
theorem iterate_subset_srcIds (conns : List Conn) (k : ℕ) :
    (usefulStep conns)^[k] ∅ ⊆ (conns.map Conn.sourceId).toFinset := by
  induction k with
  | zero => simp
  | succ k ih =>
    rw [Function.iterate_succ_apply']
    intro x hx
    rcases mem_foldl_usefulStepOne_elim conns _ x hx with h | ⟨c, hc, hcx⟩
    · exact ih h
    · exact List.mem_toFinset.mpr (List.mem_map.mpr ⟨c, hc, hcx.symm⟩)

theorem usefulStep_fix_of_fix {conns : List Conn} {u : Finset ℕ}
    (h : usefulStep conns u = u) (m : ℕ) : (usefulStep conns)^[m] u = u :=
  Function.iterate_fixed h m

/-- The iterated scan reaches a fixpoint of `usefulStep` after
`conns.length + 1` scans. -/
theorem usefulSet_fixed (conns : List Conn) :
    usefulStep conns (usefulSet conns) = usefulSet conns := by
  set f := usefulStep conns with hf
  set S : ℕ → Finset ℕ := fun k => f^[k] ∅ with hS
  have hstep : ∀ k, S (k + 1) = f (S k) := by
    intro k
    simp only [hS, Function.iterate_succ_apply']
  have hmono : ∀ k, S k ⊆ S (k + 1) := by
    intro k
    rw [hstep]
    exact subset_foldl_usefulStepOne conns (S k)
  have hA : ∀ k, S (k + 1) = S k → S (k + 2) = S (k + 1) := by
    intro k h
    rw [hstep, hstep]
    exact congrArg f ((hstep k).symm.trans h)
  have hB : ∀ k, S (k + 1) ≠ S k → (S k).card + 1 ≤ (S (k + 1)).card := by
    intro k h
    exact Finset.card_lt_card (Finset.ssubset_iff_subset_ne.mpr ⟨hmono k, fun e => h e.symm⟩)
  have hC : ∀ k, (∀ j < k, S (j + 1) ≠ S j) → k ≤ (S k).card := by
    intro k
    induction k with
    | zero => intro _; exact Nat.zero_le _
    | succ k ih =>
      intro h
      have h1 := ih (fun j hj => h j (Nat.lt_succ_of_lt hj))
      have h2 := hB k (h k (Nat.lt_succ_self k))
      omega
  have hbound : ∀ k, (S k).card ≤ conns.length := by
    intro k
    calc (S k).card ≤ (conns.map Conn.sourceId).toFinset.card :=
          Finset.card_le_card (iterate_subset_srcIds conns k)
      _ ≤ (conns.map Conn.sourceId).length := (conns.map Conn.sourceId).toFinset_card_le
      _ = conns.length := List.length_map _ _
  set N := conns.length + 1 with hN
  show f (S N) = S N
  by_contra hne
  have hcontra : ∀ j ≤ N, S (j + 1) ≠ S j := by
    intro j hj heq
    have hfix : f (S j) = S j := by rw [← hstep]; exact heq
    have hall : ∀ m, S (j + m) = S j := by
      intro m
      have hiter : S (j + m) = f^[m] (S j) := by
        simp only [hS]
        rw [Nat.add_comm, Function.iterate_add_apply]
      rw [hiter, usefulStep_fix_of_fix hfix]
    have e1 : S (N + 1) = S j := by
      have := hall (N + 1 - j)
      rwa [Nat.add_sub_cancel' (hj.trans (Nat.le_succ N))] at this
    have e2 : S N = S j := by
      have := hall (N - j)
      rwa [Nat.add_sub_cancel' hj] at this
    exact hne ((hstep N).symm.trans (e1.trans e2.symm))
  have hcard := hC (N + 1) (fun j hj => hcontra j (Nat.lt_succ_iff.mp hj))
  have hcard2 := hbound (N + 1)
  omega

/-- If a connection's trigger condition holds with respect to the starting
set, the scan inserts its source id. -/
theorem sourceId_mem_foldl (l : List Conn) :
    ∀ (u : Finset ℕ) (c : Conn), c ∈ l → c.sourceType = 1 →
      (c.sinkType = 1 ∨ (c.sinkType = 0 ∧ c.sinkId ∈ u)) →
      c.sourceId ∈ l.foldl usefulStepOne u := by
  induction l with
  | nil => intro u c hc; exact absurd hc (List.not_mem_nil c)
  | cons d t ih =>
    intro u c hc hsrc htrig
    rcases List.mem_cons.mp hc with rfl | hct
    · have hmem : c.sourceId ∈ usefulStepOne u c := by
        unfold usefulStepOne
        rcases htrig with h1 | ⟨h0, hin⟩
        · rw [if_pos h1, if_pos hsrc]
          exact Finset.mem_insert_self _ _
        · rw [if_neg (by omega), if_pos ⟨h0, hin⟩, if_pos hsrc]
          exact Finset.mem_insert_self _ _
      exact subset_foldl_usefulStepOne t (usefulStepOne u c) hmem
    · refine ih (usefulStepOne u d) c hct hsrc ?_
      rcases htrig with h1 | ⟨h0, hin⟩
      · exact Or.inl h1
      · exact Or.inr ⟨h0, subset_usefulStepOne u d hin⟩

theorem usefulSet_closed_direct {conns : List Conn} {c : Conn}
    (hc : c ∈ conns) (hsrc : c.sourceType = 1) (hsnk : c.sinkType = 1) :
    c.sourceId ∈ usefulSet conns := by
  have := sourceId_mem_foldl conns (usefulSet conns) c hc hsrc (Or.inl hsnk)
  rwa [show conns.foldl usefulStepOne (usefulSet conns) = usefulStep conns (usefulSet conns)
    from rfl, usefulSet_fixed] at this

theorem usefulSet_closed_chain {conns : List Conn} {c : Conn}
    (hc : c ∈ conns) (hsrc : c.sourceType = 1) (hsnk : c.sinkType = 0)
    (hin : c.sinkId ∈ usefulSet conns) :
    c.sourceId ∈ usefulSet conns := by
  have := sourceId_mem_foldl conns (usefulSet conns) c hc hsrc (Or.inr ⟨hsnk, hin⟩)
  rwa [show conns.foldl usefulStepOne (usefulSet conns) = usefulStep conns (usefulSet conns)
    from rfl, usefulSet_fixed] at this

theorem mem_usefulStepOne_sound {conns : List Conn} {u : Finset ℕ} {c : Conn}
    (hc : c ∈ conns) (hu : ∀ x ∈ u, Useful conns x) :
    ∀ x ∈ usefulStepOne u c, Useful conns x := by
  intro x hx
  unfold usefulStepOne at hx
  split at hx
  · rename_i h1
    split at hx
    · rename_i hsrc
      rcases Finset.mem_insert.mp hx with rfl | h
      · exact Useful.direct hc hsrc h1
      · exact hu x h
    · exact hu x hx
  · split at hx
    · rename_i h0
      split at hx
      · rename_i hsrc
        rcases Finset.mem_insert.mp hx with rfl | h
        · exact Useful.chain hc hsrc h0.1 (hu _ h0.2)
        · exact hu x h
      · exact hu x hx
    · exact hu x hx

theorem foldl_usefulStepOne_sound (conns : List Conn) :
    ∀ (l : List Conn), (∀ c ∈ l, c ∈ conns) →
      ∀ (u : Finset ℕ), (∀ x ∈ u, Useful conns x) →
        ∀ x ∈ l.foldl usefulStepOne u, Useful conns x := by
  intro l
  induction l with
  | nil => intro _ u hu x hx; exact hu x hx
  | cons c t ih =>
    intro hl u hu x hx
    exact ih (fun d hd => hl d (List.mem_cons_of_mem c hd)) (usefulStepOne u c)
      (mem_usefulStepOne_sound (hl c (List.mem_cons_self c t)) hu) x hx

/-- Membership in the computed fixpoint coincides with the spec's
backward-reachability predicate. -/
theorem mem_usefulSet_iff (conns : List Conn) (x : ℕ) :
    x ∈ usefulSet conns ↔ Useful conns x := by
  constructor
  · intro hx
    have hsound : ∀ k, ∀ y ∈ (usefulStep conns)^[k] ∅, Useful conns y := by
      intro k
      induction k with
      | zero => intro y hy; simp at hy
      | succ k ih =>
        rw [Function.iterate_succ_apply']
        exact foldl_usefulStepOne_sound conns conns (fun c hc => hc) _ ih
    exact hsound _ x hx
  · intro hx
    induction hx with
    | direct hc hsrc hsnk => exact usefulSet_closed_direct hc hsrc hsnk
    | chain hc hsrc hsnk _ ih => exact usefulSet_closed_chain hc hsrc hsnk ih

/-! ## C5: pruning -/

/-- C5: (i) a genome whose decoded genes all sink into internal neurons
yields an empty pruned connection list; (ii) in general, pruning keeps a
connection iff its sink is an action, or its sink id is in the
backward-reachable useful set. -/
theorem pruneDeadEnds_spec :
    (∀ genome : List ℕ, (∀ g ∈ genome, (decode_gene g).sinkType = 0) →
      pruneDeadEnds (parse_genome genome) = []) ∧
    (∀ (conns : List Conn) (c : Conn),
      c ∈ pruneDeadEnds conns ↔ c ∈ conns ∧ (c.sinkType = 1 ∨ Useful conns c.sinkId)) := by
  have hmem : ∀ (conns : List Conn) (c : Conn),
      c ∈ pruneDeadEnds conns ↔ c ∈ conns ∧ (c.sinkType = 1 ∨ Useful conns c.sinkId) := by
    intro conns c
    unfold pruneDeadEnds
    rw [List.mem_filter]
    constructor
    · rintro ⟨hc, hp⟩
      refine ⟨hc, ?_⟩
      rcases Bool.or_eq_true_iff.mp hp with h | h
      · exact Or.inl (beq_iff_eq.mp h)
      · exact Or.inr ((mem_usefulSet_iff conns c.sinkId).mp (of_decide_eq_true h))
    · rintro ⟨hc, hp⟩
      refine ⟨hc, ?_⟩
      rcases hp with h | h
      · exact Bool.or_eq_true_iff.mpr (Or.inl (by simpa using h))
      · exact Bool.or_eq_true_iff.mpr (Or.inr (decide_eq_true
          ((mem_usefulSet_iff conns c.sinkId).mpr h)))
  refine ⟨?_, hmem⟩
  intro genome hall
  have hconns : ∀ c ∈ parse_genome genome, c.sinkType = 0 := by
    intro c hc
    rcases List.mem_map.mp hc with ⟨g, hg, rfl⟩
    exact hall g hg
  have hnouseful : ∀ x, ¬ Useful (parse_genome genome) x := by
    intro x hx
    induction hx with
    | direct hc _ hsnk => exact absurd (hconns _ hc) (by omega)
    | chain _ _ _ _ ih => exact ih
  rw [List.eq_nil_iff_forall_not_mem]
  intro c hc
  rcases (hmem _ c).mp hc with ⟨hcm, h1 | h2⟩
  · exact absurd (hconns c hcm) (by omega)
  · exact hnouseful _ h2

/-- Witness for C5 at the concrete all-internal-sink genome `[0]`. -/
theorem pruneDeadEnds_spec_witness : pruneDeadEnds (parse_genome [0]) = [] :=
  pruneDeadEnds_spec.1 [0] (by decide)

/-! ## C9: bounded outputs -/

/-- C9: whenever the activation function maps into `[-1, 1]` (as `np.tanh`
does), every component of the action vector returned by `forward` lies in
`[-1, 1]`, for every genome-derived connection list and input vector. -/
theorem forward_bounded (σ : ℚ → ℚ) (hσ : ∀ x, |σ x| ≤ 1)
    (conns : List Conn) (inputs : ℕ → ℚ) :
    ∀ v ∈ forward σ conns inputs, -1 ≤ v ∧ v ≤ 1 := by
  intro v hv
  unfold forward at hv
  rcases List.mem_map.mp hv with ⟨k, _, rfl⟩
  exact abs_le.mp (hσ _)

/-- Witness for C9 with the zero activation on the genome `[5]`. -/
theorem forward_bounded_witness :
    -1 ≤ (forward (fun _ => 0) (parse_genome [5]) (fun _ => 0)).getD 0 0 ∧
      (forward (fun _ => 0) (parse_genome [5]) (fun _ => 0)).getD 0 0 ≤ 1 := by
  refine forward_bounded (fun _ => 0) (fun x => by norm_num) (parse_genome [5])
    (fun _ => 0) _ ?_
  have : (forward (fun _ => 0) (parse_genome [5]) (fun _ => 0)).getD 0 0
      = (0 : ℚ) := by
    with_unfolding_all decide
  rw [this]
  have h0 : (0 : ℚ) ∈ forward (fun _ => 0) (parse_genome [5]) (fun _ => 0) := by
    with_unfolding_all decide
  exact h0

/-! ## C8: pruning preserves the forward pass -/

theorem decode_sourceType_lt (g : ℕ) : (decode_gene g).sourceType < 2 := by
  show (g >>> 31) &&& 0x1 < 2
  rw [Nat.and_one_is_mod]
  exact Nat.mod_lt _ (by norm_num)

/-- Both filters that feed an internal neuron `j` in the useful set agree
between the full and the pruned connection lists. -/
theorem filter_internal_pruned (conns : List Conn) (j : ℕ)
    (hj : j ∈ usefulSet conns) :
    (pruneDeadEnds conns).filter (fun c => c.sinkType == 0 && c.sinkId == j)
      = conns.filter (fun c => c.sinkType == 0 && c.sinkId == j) := by
  unfold pruneDeadEnds
  rw [List.filter_filter]
  apply List.filter_congr
  intro c _
  by_cases h : (c.sinkType == 0 && c.sinkId == j) = true
  · have h0 : c.sinkType = 0 := beq_iff_eq.mp (Bool.and_elim_left h)
    have hjj : c.sinkId = j := beq_iff_eq.mp (Bool.and_elim_right h)
    simp [h0, hjj, hj]
  · simp only [Bool.and_eq_true] at h
    push_neg at h
    by_cases h0 : c.sinkType = 0
    · have := h (by simpa using h0)
      simp [h0, show (c.sinkId == j) = false from by simpa using this]
    · simp [show (c.sinkType == 0) = false from by simpa using h0]

/-- The action-sink filter agrees between the full and pruned lists. -/
theorem filter_action_pruned (conns : List Conn) (k : ℕ) :
    (pruneDeadEnds conns).filter (fun c => c.sinkType == 1 && c.sinkId == k)
      = conns.filter (fun c => c.sinkType == 1 && c.sinkId == k) := by
  unfold pruneDeadEnds
  rw [List.filter_filter]
  apply List.filter_congr
  intro c _
  by_cases h : (c.sinkType == 1 && c.sinkId == k) = true
  · have h1 : (c.sinkType == 1) = true := Bool.and_elim_left h
    simp [beq_iff_eq.mp h1, beq_iff_eq.mp (Bool.and_elim_right h)]
  · simp only [Bool.and_eq_true] at h
    push_neg at h
    by_cases h1 : c.sinkType = 1
    · have := h (by simpa using h1)
      simp [h1, show (c.sinkId == k) = false from by simpa using this]
    · simp [show (c.sinkType == 1) = false from by simpa using h1]

/-- Internal accumulation into a useful neuron agrees between the full
list (with one internal state) and the pruned list (with another state
agreeing on the useful set). -/
theorem internalAcc_pruned (conns : List Conn)
    (hsrc : ∀ c ∈ conns, c.sourceType ≠ 0 → c.sourceType = 1)
    (inputs ivals ivals' : ℕ → ℚ)
    (hiv : ∀ i ∈ usefulSet conns, ivals i = ivals' i)
    (j : ℕ) (hj : j ∈ usefulSet conns) :
    internalAcc (pruneDeadEnds conns) inputs ivals' j
      = internalAcc conns inputs ivals j := by
  unfold internalAcc
  rw [filter_internal_pruned conns j hj]
  congr 1
  apply List.map_congr_left
  intro c hc
  have hcm : c ∈ conns := List.mem_of_mem_filter hc
  have hprop := List.of_mem_filter hc
  have h0 : c.sinkType = 0 := beq_iff_eq.mp (Bool.and_elim_left hprop)
  have hjj : c.sinkId = j := beq_iff_eq.mp (Bool.and_elim_right hprop)
  unfold srcVal
  by_cases hs : c.sourceType = 0
  · rw [if_pos hs, if_pos hs]
  · rw [if_neg hs, if_neg hs]
    have hs1 := hsrc c hcm hs
    have : c.sourceId ∈ usefulSet conns :=
      usefulSet_closed_chain hcm hs1 h0 (hjj ▸ hj)
    rw [hiv _ this]

/-- Action accumulation agrees between the full and pruned lists when the
internal states agree on the useful set. -/
theorem actionAcc_pruned (conns : List Conn)
    (hsrc : ∀ c ∈ conns, c.sourceType ≠ 0 → c.sourceType = 1)
    (inputs ivals ivals' : ℕ → ℚ)
    (hiv : ∀ i ∈ usefulSet conns, ivals i = ivals' i)
    (k : ℕ) :
    actionAcc (pruneDeadEnds conns) inputs ivals' k
      = actionAcc conns inputs ivals k := by
  unfold actionAcc
  rw [filter_action_pruned conns k]
  congr 1
  apply List.map_congr_left
  intro c hc
  have hcm : c ∈ conns := List.mem_of_mem_filter hc
  have hprop := List.of_mem_filter hc
  have h1 : c.sinkType = 1 := beq_iff_eq.mp (Bool.and_elim_left hprop)
  unfold srcVal
  by_cases hs : c.sourceType = 0
  · rw [if_pos hs, if_pos hs]
  · rw [if_neg hs, if_neg hs]
    have hs1 := hsrc c hcm hs
    have : c.sourceId ∈ usefulSet conns := usefulSet_closed_direct hcm hs1 h1
    rw [hiv _ this]

/-- C8: for every genome and every sensor input vector, the forward pass
over the pruned connection list returns the same action vector as the
forward pass over the full unpruned list, for every activation function. -/
theorem forward_pruned_eq (σ : ℚ → ℚ) (genome : List ℕ) (inputs : ℕ → ℚ) :
    forward σ (pruneDeadEnds (parse_genome genome)) inputs
      = forward σ (parse_genome genome) inputs := by
  set conns := parse_genome genome with hconns
  have hsrc : ∀ c ∈ conns, c.sourceType ≠ 0 → c.sourceType = 1 := by
    intro c hc _
    rcases List.mem_map.mp hc with ⟨g, _, rfl⟩
    have := decode_sourceType_lt g
    omega
  have hiv0 : ∀ i ∈ usefulSet conns, (fun _ => (0:ℚ)) i = (fun _ => (0:ℚ)) i :=
    fun _ _ => rfl
  have hiv1 : ∀ i ∈ usefulSet conns,
      internalPass σ conns inputs (fun _ => 0) i
        = internalPass σ (pruneDeadEnds conns) inputs (fun _ => 0) i := by
    intro i hi
    have h := internalAcc_pruned conns hsrc inputs _ _ hiv0 i hi
    simp only [internalPass]
    exact congrArg σ h.symm
  have hiv2 : ∀ i ∈ usefulSet conns,
      internalPass σ conns inputs (internalPass σ conns inputs (fun _ => 0)) i
        = internalPass σ (pruneDeadEnds conns) inputs
            (internalPass σ (pruneDeadEnds conns) inputs (fun _ => 0)) i := by
    intro i hi
    have h := internalAcc_pruned conns hsrc inputs _ _ hiv1 i hi
    simp only [internalPass] at h ⊢
    exact congrArg σ h.symm
  simp only [forward]
  apply List.map_congr_left
  intro k _
  congr 1
  exact actionAcc_pruned conns hsrc inputs _ _ hiv2 k

theorem chooseActionAux_cases (l : List ℚ) :
    ∀ (i : ℕ) (best : Option ℕ) (bv : ℚ),
      (chooseActionAux l i best bv = best ∧ ∀ j < l.length, |l.getD j 0| ≤ bv) ∨
      (∃ k, k < l.length ∧ chooseActionAux l i best bv = some (i + k) ∧
        |l.getD k 0| > bv ∧
        (∀ j < k, |l.getD j 0| < |l.getD k 0|) ∧
        (∀ j < l.length, |l.getD j 0| ≤ |l.getD k 0|)) := by
  induction l with
  | nil =>
    intro i best bv
    exact Or.inl ⟨rfl, fun j hj => absurd hj (by simp)⟩
  | cons v t ih =>
    intro i best bv
    by_cases h : |v| > bv
    · rcases ih (i + 1) (some i) |v| with ⟨heq, hall⟩ | ⟨k, hk, heq, hgt, hlt, hle⟩
      · refine Or.inr ⟨0, by simp, ?_, ?_, ?_, ?_⟩
        · simpa [chooseActionAux, h] using heq
        · simpa using h
        · intro j hj; omega
        · intro j hj
          match j with
          | 0 => simp
          | j + 1 =>
            have := hall j (by simpa using hj)
            simpa using this
      · refine Or.inr ⟨k + 1, by simpa using hk, ?_, ?_, ?_, ?_⟩
        · have : i + 1 + k = i + (k + 1) := by omega
          simpa [chooseActionAux, h, this] using heq
        · simpa using h.trans hgt
        · intro j hj
          match j with
          | 0 => simpa using hgt
          | j + 1 => simpa using hlt j (by omega)
        · intro j hj
          match j with
          | 0 => simpa using hgt.le
          | j + 1 => simpa using hle j (by simpa using hj)
    · rcases ih (i + 1) best bv with ⟨heq, hall⟩ | ⟨k, hk, heq, hgt, hlt, hle⟩
      · refine Or.inl ⟨by simpa [chooseActionAux, h] using heq, ?_⟩
        intro j hj
        match j with
        | 0 => simpa using not_lt.mp h
        | j + 1 => simpa using hall j (by simpa using hj)
      · refine Or.inr ⟨k + 1, by simpa using hk, ?_, ?_, ?_, ?_⟩
        · have : i + 1 + k = i + (k + 1) := by omega
          simpa [chooseActionAux, h, this] using heq
        · simpa using hgt
        · intro j hj
          match j with
          | 0 =>
            have h1 : |v| ≤ bv := not_lt.mp h
            simpa using h1.trans_lt hgt
          | j + 1 => simpa using hlt j (by omega)
        · intro j hj
          match j with
          | 0 =>
            have h1 : |v| ≤ bv := not_lt.mp h
            simpa using h1.trans hgt.le
          | j + 1 => simpa using hle j (by simpa using hj)

theorem chooseActionAux_of_all_le (l : List ℚ) :
    ∀ (i : ℕ) (best : Option ℕ) (bv : ℚ),
      (∀ j < l.length, |l.getD j 0| ≤ bv) → chooseActionAux l i best bv = best := by
  induction l with
  | nil => intro i best bv _; rfl
  | cons v t ih =>
    intro i best bv hall
    have h0 : |v| ≤ bv := by simpa using hall 0 (by simp)
    rw [chooseActionAux, if_neg (not_lt.mpr h0)]
    exact ih (i + 1) best bv (fun j hj => by simpa using hall (j + 1) (by simpa using hj))

/-- C6: the per-step action choice returns index `i` exactly when the
activation at `i` strictly exceeds the 0.1 threshold in magnitude, every
earlier activation is strictly smaller in magnitude (an exact tie never
overrides the earlier index), and no later activation is larger; it
returns none exactly when no activation magnitude strictly exceeds 0.1. -/
theorem chooseAction_spec (acts : List ℚ) :
    (∀ i : ℕ, chooseAction acts = some i ↔
      (i < acts.length ∧ |acts.getD i 0| > 1/10 ∧
        (∀ j < i, |acts.getD j 0| < |acts.getD i 0|) ∧
        (∀ j < acts.length, |acts.getD j 0| ≤ |acts.getD i 0|))) ∧
    (chooseAction acts = none ↔ ∀ j < acts.length, |acts.getD j 0| ≤ 1/10) := by
  have hcases := chooseActionAux_cases acts 0 none (1/10)
  constructor
  · intro i
    constructor
    · intro hsome
      rcases hcases with ⟨heq, _⟩ | ⟨k, hk, heq, hgt, hlt, hle⟩
      · rw [chooseAction] at hsome
        rw [heq] at hsome
        exact absurd hsome (by simp)
      · rw [chooseAction] at hsome
        rw [heq] at hsome
        have hik : i = k := by
          have := Option.some_injective _ hsome
          omega
        subst hik
        exact ⟨hk, hgt, hlt, hle⟩
    · rintro ⟨hilen, hith, hiearlier, himax⟩
      rcases hcases with ⟨heq, hall⟩ | ⟨k, hk, heq, hgt, hlt, hle⟩
      · exact absurd (hall i hilen) (not_le.mpr hith)
      · have hik : i = k := by
          by_contra hne
          rcases Nat.lt_or_ge i k with hik | hik
          · exact absurd (himax k hk) (not_le.mpr (hlt i hik))
          · have hki : k < i := by omega
            exact absurd (hle i hilen) (not_le.mpr (hiearlier k hki))
        rw [chooseAction, heq, hik]
        simp
  · constructor
    · intro hnone
      rcases hcases with ⟨_, hall⟩ | ⟨k, _, heq, _, _, _⟩
      · exact hall
      · rw [chooseAction] at hnone
        rw [heq] at hnone
        exact absurd hnone (by simp)
    · intro hall
      exact chooseActionAux_of_all_le acts 0 none (1/10) hall

/-- Witness for C6: on `[1/20, -1/2, 1/2, 0]` the choice is index 1 (the
first of the two tied maximal magnitudes). -/
theorem chooseAction_spec_witness : chooseAction [1/20, -1/2, 1/2, 0] = some 1 := by
  refine ((chooseAction_spec [1/20, -1/2, 1/2, 0]).1 1).mpr ?_
  refine ⟨by with_unfolding_all decide, by with_unfolding_all decide, ?_, ?_⟩
  · intro j hj
    interval_cases j
    · with_unfolding_all decide
  · intro j hj
    simp only [List.length_cons, List.length_nil] at hj
    interval_cases j <;> with_unfolding_all decide

/-- Witness for C8 at a concrete genome and activation. -/
theorem forward_pruned_eq_witness :
    forward (fun q => q) (pruneDeadEnds (parse_genome [5, 3])) (fun _ => 1)
      = forward (fun q => q) (parse_genome [5, 3]) (fun _ => 1) :=
  forward_pruned_eq (fun q => q) [5, 3] (fun _ => 1)

theorem gridUpdate_same (g : ℤ → ℤ → Option ℕ) (y x : ℤ) (v : Option ℕ) :
    gridUpdate g y x v y x = v := by
  unfold gridUpdate
  rw [if_pos ⟨rfl, rfl⟩]

theorem gridUpdate_other (g : ℤ → ℤ → Option ℕ) (y x : ℤ) (v : Option ℕ)
    (y' x' : ℤ) (h : ¬(y' = y ∧ x' = x)) : gridUpdate g y x v y' x' = g y' x' := by
  unfold gridUpdate
  rw [if_neg h]

theorem place_preserves_inv (s : WorldState) (c : ℕ) (hinv : GridInv s) :
    GridInv (place_creature s c).1 := by
  unfold place_creature
  match hc : s.agents[c]? with
  | none => exact hinv
  | some cr =>
    dsimp only
    by_cases hb : inBounds s cr.x cr.y
    · rw [if_pos hb]
      by_cases hfree : s.grid cr.y cr.x = none
      · rw [if_pos hfree]
        intro x y d hd
        simp only at hd
        by_cases hxy : y = cr.y ∧ x = cr.x
        · rw [hxy.1, hxy.2, gridUpdate_same] at hd
          exact ⟨cr, by rw [← Option.some_injective _ hd]; exact hc, hxy.2.symm, hxy.1.symm⟩
        · rw [gridUpdate_other _ _ _ _ _ _ hxy] at hd
          exact hinv x y d hd
      · rw [if_neg hfree]; exact hinv
    · rw [if_neg hb]; exact hinv

theorem remove_preserves_inv (s : WorldState) (c : ℕ) (hinv : GridInv s) :
    GridInv (remove_creature s c) := by
  unfold remove_creature
  match hc : s.agents[c]? with
  | none => exact hinv
  | some cr =>
    dsimp only
    by_cases hb : inBounds s cr.x cr.y
    · rw [if_pos hb]
      by_cases hme : s.grid cr.y cr.x = some c
      · rw [if_pos hme]
        intro x y d hd
        simp only at hd
        by_cases hxy : y = cr.y ∧ x = cr.x
        · rw [hxy.1, hxy.2, gridUpdate_same] at hd
          exact absurd hd (by simp)
        · rw [gridUpdate_other _ _ _ _ _ _ hxy] at hd
          exact hinv x y d hd
      · rw [if_neg hme]; exact hinv
    · rw [if_neg hb]; exact hinv

theorem move_preserves_inv (s : WorldState) (c : ℕ) (dx dy : ℤ) (hinv : GridInv s) :
    GridInv (move_creature s c dx dy).1 := by
  unfold move_creature
  match hc : s.agents[c]? with
  | none => exact hinv
  | some cr =>
    dsimp only
    set nx := max 0 (min (s.width - 1) (cr.x + dx)) with hnx
    set ny := max 0 (min (s.height - 1) (cr.y + dy)) with hny
    by_cases hwall : nx = cr.x ∧ ny = cr.y
    · rw [if_pos hwall]; exact hinv
    · rw [if_neg hwall]
      by_cases hocc : s.grid ny nx ≠ none
      · rw [if_pos hocc]; exact hinv
      · rw [if_neg hocc]
        intro x y d hd
        simp only at hd
        have hclen : c < s.agents.length := by
          by_contra hlen
          rw [List.getElem?_eq_none (by omega)] at hc
          exact absurd hc (by simp)
        by_cases hnew : y = ny ∧ x = nx
        · rw [hnew.1, hnew.2, gridUpdate_same] at hd
          have hdc : d = c := (Option.some_injective _ hd).symm
          subst hdc
          refine ⟨_, List.getElem?_set_self hclen, ?_, ?_⟩
          · simp [hnew.2]
          · simp [hnew.1]
        · rw [gridUpdate_other _ _ _ _ _ _ hnew] at hd
          by_cases hold : y = cr.y ∧ x = cr.x
          · rw [hold.1, hold.2, gridUpdate_same] at hd
            exact absurd hd (by simp)
          · rw [gridUpdate_other _ _ _ _ _ _ hold] at hd
            obtain ⟨cr', hcr', hx', hy'⟩ := hinv x y d hd
            have hdc : d ≠ c := by
              intro hdc
              subst hdc
              rw [hc] at hcr'
              have := Option.some_injective _ hcr'
              subst this
              exact hold ⟨hy'.symm, hx'.symm⟩
            exact ⟨cr', by rw [List.getElem?_set_ne (fun h => hdc h.symm)]; exact hcr',
              hx', hy'⟩

/-- C2: after any sequence of place/move/remove operations starting from an
empty grid, every cell that references an agent matches that agent's
stored coordinates; consequently no agent occupies two distinct cells,
and (by the functional grid representation itself, as in the source's
single-reference cells) no cell holds two agents. -/
theorem grid_invariant (w h : ℤ) (agents : List Creature) (ops : List WOp) :
    GridInv (applyWOps (emptyWorld w h agents) ops) ∧
    (∀ x y x' y' c,
      (applyWOps (emptyWorld w h agents) ops).grid y x = some c →
      (applyWOps (emptyWorld w h agents) ops).grid y' x' = some c →
      x = x' ∧ y = y') := by
  have hinv : GridInv (applyWOps (emptyWorld w h agents) ops) := by
    have hbase : GridInv (emptyWorld w h agents) := by
      intro x y c hc
      exact absurd hc (by simp [emptyWorld])
    rw [applyWOps]
    induction ops generalizing agents with
    | nil => exact hbase
    | cons op rest ih =>
      rw [List.foldl_cons]
      have hstep : GridInv (applyWOp (emptyWorld w h agents) op) := by
        cases op with
        | place c => exact place_preserves_inv _ c hbase
        | move c dx dy => exact move_preserves_inv _ c dx dy hbase
        | remove c => exact remove_preserves_inv _ c hbase
      clear ih
      have hfold : ∀ (l : List WOp) (s : WorldState), GridInv s →
          GridInv (l.foldl applyWOp s) := by
        intro l
        induction l with
        | nil => intro s hs; exact hs
        | cons op' rest' ih' =>
          intro s hs
          rw [List.foldl_cons]
          refine ih' _ ?_
          cases op' with
          | place c => exact place_preserves_inv _ c hs
          | move c dx dy => exact move_preserves_inv _ c dx dy hs
          | remove c => exact remove_preserves_inv _ c hs
      exact hfold rest _ hstep
  refine ⟨hinv, ?_⟩
  intro x y x' y' c h1 h2
  obtain ⟨cr1, hc1, hx1, hy1⟩ := hinv x y c h1
  obtain ⟨cr2, hc2, hx2, hy2⟩ := hinv x' y' c h2
  rw [hc1] at hc2
  have := Option.some_injective _ hc2
  subst this
  exact ⟨hx1.symm.trans hx2, hy1.symm.trans hy2⟩

/-- Witness for C2 at a concrete operation sequence. -/
theorem grid_invariant_witness :
    GridInv (applyWOps (emptyWorld 4 4 [Creature.new 0 0 [5]])
      [WOp.place 0, WOp.move 0 1 0, WOp.remove 0]) :=
  (grid_invariant 4 4 [Creature.new 0 0 [5]] [WOp.place 0, WOp.move 0 1 0, WOp.remove 0]).1

/-- C3: `move_creature` fails (returns false) exactly when the clamped
target equals the current cell or the target cell is non-empty; on failure
the state is completely unchanged; under the grid invariant the blocking
occupant of a distinct target cell is a different agent; and a creature at
`x = 0` moving west stays in place with a false result. -/
theorem move_creature_spec (s : WorldState) (c : ℕ) (dx dy : ℤ) (cr : Creature)
    (hc : s.agents[c]? = some cr) :
    ((move_creature s c dx dy).2 = false ↔
      ((max 0 (min (s.width - 1) (cr.x + dx)) = cr.x ∧
        max 0 (min (s.height - 1) (cr.y + dy)) = cr.y) ∨
       s.grid (max 0 (min (s.height - 1) (cr.y + dy)))
         (max 0 (min (s.width - 1) (cr.x + dx))) ≠ none)) ∧
    ((move_creature s c dx dy).2 = false → (move_creature s c dx dy).1 = s) ∧
    (GridInv s → ∀ d,
      s.grid (max 0 (min (s.height - 1) (cr.y + dy)))
        (max 0 (min (s.width - 1) (cr.x + dx))) = some d →
      ¬(max 0 (min (s.width - 1) (cr.x + dx)) = cr.x ∧
        max 0 (min (s.height - 1) (cr.y + dy)) = cr.y) → d ≠ c) ∧
    (cr.x = 0 → 0 ≤ cr.y → cr.y < s.height →
      (move_creature s c (-1) 0).2 = false ∧ (move_creature s c (-1) 0).1 = s) := by
  refine ⟨?_, ?_, ?_, ?_⟩
  · unfold move_creature
    rw [hc]
    dsimp only
    by_cases hwall : max 0 (min (s.width - 1) (cr.x + dx)) = cr.x ∧
        max 0 (min (s.height - 1) (cr.y + dy)) = cr.y
    · rw [if_pos hwall]
      simpa using Or.inl hwall
    · rw [if_neg hwall]
      by_cases hocc : s.grid (max 0 (min (s.height - 1) (cr.y + dy)))
          (max 0 (min (s.width - 1) (cr.x + dx))) ≠ none
      · rw [if_pos hocc]
        simpa using Or.inr hocc
      · rw [if_neg hocc]
        simp only [not_not] at hocc
        constructor
        · intro h
          exact absurd h (by simp)
        · intro h
          rcases h with h | h
          · exact absurd h hwall
          · exact absurd hocc h
  · unfold move_creature
    rw [hc]
    dsimp only
    by_cases hwall : max 0 (min (s.width - 1) (cr.x + dx)) = cr.x ∧
        max 0 (min (s.height - 1) (cr.y + dy)) = cr.y
    · rw [if_pos hwall]
      intro _
      rfl
    · rw [if_neg hwall]
      by_cases hocc : s.grid (max 0 (min (s.height - 1) (cr.y + dy)))
          (max 0 (min (s.width - 1) (cr.x + dx))) ≠ none
      · rw [if_pos hocc]
        intro _
        rfl
      · rw [if_neg hocc]
        intro h
        exact absurd h (by simp)
  · intro hinv d hd hne hdc
    subst hdc
    obtain ⟨cr', hcr', hx', hy'⟩ := hinv _ _ d hd
    rw [hc] at hcr'
    have := Option.some_injective _ hcr'
    subst this
    exact hne ⟨hx'.symm, hy'.symm⟩
  · intro hx0 hy0 hyh
    have hnx : max 0 (min (s.width - 1) (cr.x + (-1))) = cr.x := by
      rw [hx0]; omega
    have hny : max 0 (min (s.height - 1) (cr.y + 0)) = cr.y := by omega
    unfold move_creature
    rw [hc]
    dsimp only
    rw [if_pos ⟨hnx, hny⟩]
    exact ⟨rfl, rfl⟩

/-- Witness for C3: the origin creature moving west is wall-blocked with no
state change. -/
theorem move_creature_spec_witness :
    (move_creature testWorld 0 (-1) 0).2 = false ∧
      (move_creature testWorld 0 (-1) 0).1 = testWorld := by
  have h := move_creature_spec testWorld 0 (-1) 0 (Creature.new 0 0 [5]) rfl
  exact h.2.2.2 rfl (by decide) (by decide)

/-! ## C7: reproducibility -/

theorem statsKey_elapsed (st : GenStats) (e : ℚ) :
    statsKey {st with elapsed := e} = statsKey st := rfl

theorem runAllGenerationsAux_clock_irrelevant (env : NumEnv) (cfg : SimConfig) :
    ∀ (n genIdx : ℕ) (genomes : List (List ℕ)) (rng : Rng) (clk clk' : Clock),
      (runAllGenerationsAux env cfg n genIdx genomes rng clk).1.map statsKey
        = (runAllGenerationsAux env cfg n genIdx genomes rng clk').1.map statsKey := by
  intro n
  induction n with
  | zero => intro genIdx genomes rng clk clk'; rfl
  | succ n ih =>
    intro genIdx genomes rng clk clk'
    simp only [runAllGenerationsAux]
    by_cases hsurv : (runOneGeneration env cfg genIdx genomes rng).1 = []
    · rw [if_pos hsurv, if_pos hsurv]
      simp [statsKey_elapsed]
    · rw [if_neg hsurv, if_neg hsurv]
      simp only [List.map_cons, statsKey_elapsed]
      rw [ih]

/-- C7: with the random stream fixed (as it is by a fixed seed), the
sequence of per-generation statistics — generation index, population,
survivor count, alive count, survival percentage, murder count, diversity
— is identical across two complete runs; the wall clock, the only other
run input, influences nothing but the elapsed field.  The second part
instantiates the end-to-end scenario: population 50, genome length 8, 5
generations, 20 steps per generation, mode "east", on the 128×128 world. -/
theorem run_reproducible :
    (∀ (env : NumEnv) (cfg : SimConfig) (genomes : List (List ℕ))
        (rng : Rng) (clk clk' : Clock),
      (runAllGenerations env cfg genomes rng clk).1.map statsKey
        = (runAllGenerations env cfg genomes rng clk').1.map statsKey) ∧
    (∀ (env : NumEnv) (seedStream : ℕ → ℕ) (clk clk' : Clock),
      (runSimulation env ⟨50, 5, 20, 8, 1/1000, "east", 128, 128⟩
          ⟨seedStream, 0⟩ clk).1.map statsKey
        = (runSimulation env ⟨50, 5, 20, 8, 1/1000, "east", 128, 128⟩
            ⟨seedStream, 0⟩ clk').1.map statsKey) := by
  have hmain : ∀ (env : NumEnv) (cfg : SimConfig) (genomes : List (List ℕ))
      (rng : Rng) (clk clk' : Clock),
      (runAllGenerations env cfg genomes rng clk).1.map statsKey
        = (runAllGenerations env cfg genomes rng clk').1.map statsKey := by
    intro env cfg genomes rng clk clk'
    exact runAllGenerationsAux_clock_irrelevant env cfg cfg.maxGenerations 0 genomes rng clk clk'
  refine ⟨hmain, ?_⟩
  intro env seedStream clk clk'
  unfold runSimulation
  exact hmain env _ _ _ clk clk'

/-- Witness for C7 at a concrete configuration, stream and pair of clocks. -/
theorem run_reproducible_witness :
    (runAllGenerations ⟨fun _ => 0, fun _ => 0, fun _ => 0⟩ ⟨1, 1, 1, 1, 0, "east", 4, 4⟩
        [[0]] ⟨fun _ => 0, 0⟩ ⟨fun _ => 0, 0⟩).1.map statsKey
      = (runAllGenerations ⟨fun _ => 0, fun _ => 0, fun _ => 0⟩ ⟨1, 1, 1, 1, 0, "east", 4, 4⟩
          [[0]] ⟨fun _ => 0, 0⟩ ⟨fun n => (n : ℚ), 0⟩).1.map statsKey :=
  run_reproducible.1 ⟨fun _ => 0, fun _ => 0, fun _ => 0⟩ ⟨1, 1, 1, 1, 0, "east", 4, 4⟩
    [[0]] ⟨fun _ => 0, 0⟩ ⟨fun _ => 0, 0⟩ ⟨fun n => (n : ℚ), 0⟩

/-! ## C1: extinction handling -/

theorem random_genome_length : ∀ (size : ℕ) (rng : Rng),
    (random_genome size rng).1.length = size := by
  intro size
  induction size with
  | zero => intro rng; rfl
  | succ k ih =>
    intro rng
    simp only [random_genome, List.length_cons]
    rw [ih]

theorem randomGenomeBatch_spec : ∀ (n size : ℕ) (rng : Rng),
    (randomGenomeBatch n size rng).1.length = n ∧
    ∀ g ∈ (randomGenomeBatch n size rng).1, g.length = size := by
  intro n
  induction n with
  | zero =>
    intro size rng
    exact ⟨rfl, fun g hg => absurd hg (List.not_mem_nil g)⟩
  | succ k ih =>
    intro size rng
    simp only [randomGenomeBatch, List.length_cons]
    obtain ⟨hlen, hall⟩ := ih size (random_genome size rng).2
    refine ⟨by rw [hlen], ?_⟩
    intro g hg
    rcases List.mem_cons.mp hg with rfl | hg'
    · exact random_genome_length size rng
    · exact hall g hg'

/-- The survivor count recorded in the statistics is the length of the
survivor list returned alongside. -/
theorem runOneGeneration_survivors_count (env : NumEnv) (cfg : SimConfig)
    (gen : ℕ) (genomes : List (List ℕ)) (rng : Rng) :
    (runOneGeneration env cfg gen genomes rng).2.1.survivors
      = (runOneGeneration env cfg gen genomes rng).1.length := rfl

theorem runAllGenerationsAux_stops_at_extinction (env : NumEnv) (cfg : SimConfig) :
    ∀ (n genIdx : ℕ) (genomes : List (List ℕ)) (rng : Rng) (clk : Clock) (i : ℕ),
      (((runAllGenerationsAux env cfg n genIdx genomes rng clk).1[i]?).map
        GenStats.survivors) = some 0 →
      (runAllGenerationsAux env cfg n genIdx genomes rng clk).1.length = i + 1 := by
  intro n
  induction n with
  | zero =>
    intro genIdx genomes rng clk i h
    exact absurd h (by simp [runAllGenerationsAux])
  | succ n ih =>
    intro genIdx genomes rng clk i h
    simp only [runAllGenerationsAux] at h ⊢
    by_cases hsurv : (runOneGeneration env cfg genIdx genomes rng).1 = []
    · rw [if_pos hsurv] at h ⊢
      match i with
      | 0 => rfl
      | i + 1 => exact absurd h (by simp)
    · rw [if_neg hsurv] at h ⊢
      match i with
      | 0 =>
        exfalso
        simp only [List.getElem?_cons_zero, Option.map_some] at h
        have hcount := runOneGeneration_survivors_count env cfg genIdx genomes rng
        have hzero : (runOneGeneration env cfg genIdx genomes rng).2.1.survivors = 0 := by
          have := Option.some_injective _ h
          simpa using this
        rw [hcount] at hzero
        exact hsurv (List.eq_nil_of_length_eq_zero hzero)
      | i + 1 =>
        simp only [List.getElem?_cons_succ] at h
        simp only [List.length_cons]
        rw [ih (genIdx + 1) _ _ _ i h]

/-- C1 (amended): `_reproduce`, called with an empty survivor list, would
return a full random restart of exactly `population` fresh genomes of the
configured length; but the run loop of `_run_all_generations` breaks at
the generation whose selection admits no agent, so the run terminates
there instead of continuing with a restarted batch. -/
theorem extinction_behaviour :
    (∀ (cfg : SimConfig) (rng : Rng),
      (reproduce cfg [] rng).1.length = cfg.population ∧
      ∀ g ∈ (reproduce cfg [] rng).1, g.length = cfg.genomeSize) ∧
    (∀ (env : NumEnv) (cfg : SimConfig) (genomes : List (List ℕ)) (rng : Rng)
        (clk : Clock) (i : ℕ),
      (((runAllGenerations env cfg genomes rng clk).1[i]?).map
        GenStats.survivors) = some 0 →
      (runAllGenerations env cfg genomes rng clk).1.length = i + 1) := by
  constructor
  · intro cfg rng
    unfold reproduce
    rw [if_pos rfl]
    exact randomGenomeBatch_spec cfg.population cfg.genomeSize rng
  · intro env cfg genomes rng clk i h
    exact runAllGenerationsAux_stops_at_extinction env cfg cfg.maxGenerations 0
      genomes rng clk i h

/-- C1 counterexample: in this run the selection predicate admits no agent
in generation 0 (the lone creature sits at x = 0, west of the line), and
the controller stops after that single generation instead of continuing
with a random-restart batch for the remaining two requested generations. -/
theorem extinction_terminates_counterexample :
    (runAllGenerations zeroEnv extinctionCfg [[0]] zeroRng zeroClock).1.map
        GenStats.survivors = [0] ∧
    (runAllGenerations zeroEnv extinctionCfg [[0]] zeroRng zeroClock).1.length = 1 ∧
    extinctionCfg.maxGenerations = 3 := by
  refine ⟨?_, ?_, rfl⟩
  · with_unfolding_all decide
  · with_unfolding_all decide

/-- Witness for C1 (amended), applied to the concrete extinction run. -/
theorem extinction_behaviour_witness :
    (runAllGenerations zeroEnv extinctionCfg [[0]] zeroRng zeroClock).1.length = 0 + 1 :=
  extinction_behaviour.2 zeroEnv extinctionCfg [[0]] zeroRng zeroClock 0
    (by with_unfolding_all decide)

/-! ## Helper lemmas: truncation toward zero -/

theorem pyTrunc_sub_lt_one (q : ℚ) : |q - (pyTrunc q : ℚ)| < 1 := by
  unfold pyTrunc
  split
  · rw [abs_sub_lt_iff]
    constructor
    · have := Int.le_ceil q
      linarith
    · have := Int.ceil_lt_add_one q
      linarith
  · rw [abs_sub_lt_iff]
    constructor
    · have := Int.lt_floor_add_one q
      linarith
    · have := Int.floor_le q
      linarith

theorem pyTrunc_mem (q : ℚ) (lo hi : ℤ) (h1 : (lo : ℚ) ≤ q) (h2 : q ≤ (hi : ℚ)) :
    lo ≤ pyTrunc q ∧ pyTrunc q ≤ hi := by
  unfold pyTrunc
  split
  · constructor
    · exact_mod_cast h1.trans (Int.le_ceil q)
    · exact Int.ceil_le.mpr h2
  · constructor
    · exact Int.le_floor.mpr h1
    · exact_mod_cast (Int.floor_le q).trans h2

/-! ## C4: codec round trip -/

theorem pack_eq (st sid snkt skid r : ℕ) (hst : st < 2) (hsid : sid < 128)
    (hsnkt : snkt < 2) (hskid : skid < 128) (hr : r < 65536) :
    (((st &&& 0x1) <<< 31) ||| ((sid &&& 0x7F) <<< 24) ||| ((snkt &&& 0x1) <<< 23) |||
        ((skid &&& 0x7F) <<< 16) ||| (r &&& 0xFFFF))
      = st * 2147483648 + sid * 16777216 + snkt * 8388608 + skid * 65536 + r := by
  have p1 : (2 : ℕ) ^ 1 = 2 := by norm_num
  have p7 : (2 : ℕ) ^ 7 = 128 := by norm_num
  have p16 : (2 : ℕ) ^ 16 = 65536 := by norm_num
  have p23 : (2 : ℕ) ^ 23 = 8388608 := by norm_num
  have p24 : (2 : ℕ) ^ 24 = 16777216 := by norm_num
  have p31 : (2 : ℕ) ^ 31 = 2147483648 := by norm_num
  have m1 : st &&& 0x1 = st := by
    have := Nat.and_pow_two_sub_one_of_lt_two_pow (x := st) (n := 1) (by omega)
    simpa [p1] using this
  have m2 : sid &&& 0x7F = sid := by
    have := Nat.and_pow_two_sub_one_of_lt_two_pow (x := sid) (n := 7) (by omega)
    simpa [p7] using this
  have m3 : snkt &&& 0x1 = snkt := by
    have := Nat.and_pow_two_sub_one_of_lt_two_pow (x := snkt) (n := 1) (by omega)
    simpa [p1] using this
  have m4 : skid &&& 0x7F = skid := by
    have := Nat.and_pow_two_sub_one_of_lt_two_pow (x := skid) (n := 7) (by omega)
    simpa [p7] using this
  have m5 : r &&& 0xFFFF = r := by
    have := Nat.and_pow_two_sub_one_of_lt_two_pow (x := r) (n := 16) (by omega)
    simpa [p16] using this
  rw [m1, m2, m3, m4, m5, Nat.shiftLeft_eq, Nat.shiftLeft_eq, Nat.shiftLeft_eq,
    Nat.shiftLeft_eq, Nat.lor_assoc, Nat.lor_assoc, Nat.lor_assoc]
  have h16 : (2 : ℕ) ^ 16 * skid ||| r = 2 ^ 16 * skid + r :=
    (Nat.mul_add_lt_is_or (by omega) skid).symm
  have b16 : 2 ^ 16 * skid + r < 2 ^ 23 := by rw [p16, p23]; omega
  have h23 : (2 : ℕ) ^ 23 * snkt ||| (2 ^ 16 * skid + r)
      = 2 ^ 23 * snkt + (2 ^ 16 * skid + r) :=
    (Nat.mul_add_lt_is_or b16 snkt).symm
  have b23 : 2 ^ 23 * snkt + (2 ^ 16 * skid + r) < 2 ^ 24 := by
    rw [p16, p23, p24]; omega
  have h24 : (2 : ℕ) ^ 24 * sid ||| (2 ^ 23 * snkt + (2 ^ 16 * skid + r))
      = 2 ^ 24 * sid + (2 ^ 23 * snkt + (2 ^ 16 * skid + r)) :=
    (Nat.mul_add_lt_is_or b23 sid).symm
  have b24 : 2 ^ 24 * sid + (2 ^ 23 * snkt + (2 ^ 16 * skid + r)) < 2 ^ 31 := by
    rw [p16, p23, p24, p31]; omega
  have h31 : (2 : ℕ) ^ 31 * st ||| (2 ^ 24 * sid + (2 ^ 23 * snkt + (2 ^ 16 * skid + r)))
      = 2 ^ 31 * st + (2 ^ 24 * sid + (2 ^ 23 * snkt + (2 ^ 16 * skid + r))) :=
    (Nat.mul_add_lt_is_or b24 st).symm
  rw [mul_comm skid, h16, mul_comm snkt, h23, mul_comm sid, h24, mul_comm st, h31]
  rw [p16, p23, p24, p31]
  ring

/-- C4: for every field tuple with single-bit kinds, pool-valid ids, and a
weight whose scaled value lies in the signed-16-bit range,
`decode_gene (encode_gene …)` reproduces kinds and ids exactly and the
weight within one quantization step `1 / WEIGHT_DIVISOR`. -/
theorem decode_encode_gene (st sid snkt skid : ℕ) (w : ℚ)
    (hst : st < 2) (hsnkt : snkt < 2)
    (hsid0 : st = 0 → sid < NUM_SENSORS) (hsid1 : st = 1 → sid < MAX_INTERNAL_NEURONS)
    (hskid1 : snkt = 1 → skid < NUM_ACTIONS) (hskid0 : snkt = 0 → skid < MAX_INTERNAL_NEURONS)
    (hwlo : -32768 ≤ w * WEIGHT_DIVISOR) (hwhi : w * WEIGHT_DIVISOR ≤ 32767) :
    (decode_gene (encode_gene st sid snkt skid w)).sourceType = st ∧
    (decode_gene (encode_gene st sid snkt skid w)).sourceId = sid ∧
    (decode_gene (encode_gene st sid snkt skid w)).sinkType = snkt ∧
    (decode_gene (encode_gene st sid snkt skid w)).sinkId = skid ∧
    |(decode_gene (encode_gene st sid snkt skid w)).weight - w| ≤ 1 / WEIGHT_DIVISOR := by
  have hsid : sid < 128 := by
    rcases (by omega : st = 0 ∨ st = 1) with h | h
    · have := hsid0 h; simp [NUM_SENSORS] at this; omega
    · have := hsid1 h; simp [MAX_INTERNAL_NEURONS] at this; omega
  have hskid : skid < 128 := by
    rcases (by omega : snkt = 0 ∨ snkt = 1) with h | h
    · have := hskid0 h; simp [MAX_INTERNAL_NEURONS] at this; omega
    · have := hskid1 h; simp [NUM_ACTIONS] at this; omega
  set c0 : ℤ := pyTrunc (w * WEIGHT_DIVISOR) with hc0
  have hc0b : -32768 ≤ c0 ∧ c0 ≤ 32767 := by
    refine pyTrunc_mem (w * WEIGHT_DIVISOR) (-32768) 32767 ?_ ?_
    · push_cast; linarith
    · push_cast; linarith
  have hclamp : max (-32768) (min 32767 c0) = c0 := by omega
  set r : ℕ := (if c0 < 0 then c0 + 0x10000 else c0).toNat with hrdef
  have hr : r < 65536 := by
    rw [hrdef]; split <;> omega
  have henc : encode_gene st sid snkt skid w
      = st * 2147483648 + sid * 16777216 + snkt * 8388608 + skid * 65536 + r := by
    simp only [encode_gene, ← hc0, hclamp, ← hrdef]
    exact pack_eq st sid snkt skid r hst hsid hsnkt hskid hr
  have p16 : (2 : ℕ) ^ 16 = 65536 := by norm_num
  have p23 : (2 : ℕ) ^ 23 = 8388608 := by norm_num
  have p24 : (2 : ℕ) ^ 24 = 16777216 := by norm_num
  have p31 : (2 : ℕ) ^ 31 = 2147483648 := by norm_num
  have p1 : (2 : ℕ) ^ 1 = 2 := by norm_num
  have p7 : (2 : ℕ) ^ 7 = 128 := by norm_num
  set E : ℕ := st * 2147483648 + sid * 16777216 + snkt * 8388608 + skid * 65536 + r with hE
  have shr : ∀ k : ℕ, E >>> k = E / 2 ^ k := fun k => Nat.shiftRight_eq_div_pow E k
  have mask1 : ∀ x : ℕ, x &&& 0x1 = x % 2 := by
    intro x
    have := Nat.and_pow_two_sub_one_eq_mod x 1
    simpa [p1] using this
  have mask7 : ∀ x : ℕ, x &&& 0x7F = x % 128 := by
    intro x
    have := Nat.and_pow_two_sub_one_eq_mod x 7
    simpa [p7] using this
  have mask16 : ∀ x : ℕ, x &&& 0xFFFF = x % 65536 := by
    intro x
    have := Nat.and_pow_two_sub_one_eq_mod x 16
    simpa [p16] using this
  have f1 : (E >>> 31) &&& 0x1 = st := by
    rw [shr, mask1, p31, hE]; omega
  have f2 : (E >>> 24) &&& 0x7F = sid := by
    rw [shr, mask7, p24, hE]; omega
  have f3 : (E >>> 23) &&& 0x1 = snkt := by
    rw [shr, mask1, p23, hE]; omega
  have f4 : (E >>> 16) &&& 0x7F = skid := by
    rw [shr, mask7, p16, hE]; omega
  have f5 : E &&& 0xFFFF = r := by
    rw [mask16, hE]; omega
  have hwq : (decode_gene E).weight = (c0 : ℚ) / WEIGHT_DIVISOR := by
    simp only [decode_gene, f5]
    by_cases hneg : c0 < 0
    · have hrval : (r : ℤ) = c0 + 65536 := by rw [hrdef]; split <;> omega
      have : r ≥ 0x8000 := by omega
      rw [if_pos this]
      congr 1
      push_cast [hrval]
      ring
    · have hrval : (r : ℤ) = c0 := by rw [hrdef]; split <;> omega
      have : ¬ (r ≥ 0x8000) := by omega
      rw [if_neg this]
      congr 1
      push_cast [hrval]
      ring
  refine ⟨?_, ?_, ?_, ?_, ?_⟩
  · rw [henc]; simp only [decode_gene, f1]
  · rw [henc]; simp only [decode_gene, f1, f2]
    rcases (by omega : st = 0 ∨ st = 1) with h | h
    · subst h
      rw [if_pos rfl]
      exact Nat.mod_eq_of_lt (hsid0 rfl)
    · subst h
      rw [if_neg (by norm_num)]
      have h4 : sid < max 1 MAX_INTERNAL_NEURONS := by
        have := hsid1 rfl; simp [MAX_INTERNAL_NEURONS] at this ⊢; omega
      exact Nat.mod_eq_of_lt h4
  · rw [henc]; simp only [decode_gene, f3]
  · rw [henc]; simp only [decode_gene, f3, f4]
    rcases (by omega : snkt = 0 ∨ snkt = 1) with h | h
    · subst h
      rw [if_neg (by norm_num)]
      have h4 : skid < max 1 MAX_INTERNAL_NEURONS := by
        have := hskid0 rfl; simp [MAX_INTERNAL_NEURONS] at this ⊢; omega
      exact Nat.mod_eq_of_lt h4
    · subst h
      rw [if_pos rfl]
      exact Nat.mod_eq_of_lt (hskid1 rfl)
  · rw [henc, hwq]
    have htr := pyTrunc_sub_lt_one (w * WEIGHT_DIVISOR)
    rw [← hc0] at htr
    have hdiv : (8000 : ℚ) > 0 := by norm_num
    have : |(c0 : ℚ) / WEIGHT_DIVISOR - w| = |(c0 : ℚ) - w * WEIGHT_DIVISOR| / WEIGHT_DIVISOR := by
      rw [WEIGHT_DIVISOR]
      rw [show (c0 : ℚ) / 8000 - w = ((c0 : ℚ) - w * 8000) / 8000 by ring]
      rw [abs_div]
      norm_num
    rw [this, WEIGHT_DIVISOR]
    rw [div_le_div_iff_of_pos_right hdiv]
    rw [abs_sub_comm] at htr
    rw [WEIGHT_DIVISOR] at htr
    linarith

/-- Witness for C4 at the concrete field tuple `(0, 3, 1, 2, 1/2)`. -/
theorem decode_encode_gene_witness :
    (decode_gene (encode_gene 0 3 1 2 (1/2))).sourceId = 3 ∧
    |(decode_gene (encode_gene 0 3 1 2 (1/2))).weight - 1/2| ≤ 1 / WEIGHT_DIVISOR := by
  have h := decode_encode_gene 0 3 1 2 (1/2) (by norm_num) (by norm_num)
    (fun _ => by norm_num [NUM_SENSORS]) (fun h => by simp at h)
    (fun _ => by norm_num [NUM_ACTIONS]) (fun h => by simp at h)
    (by norm_num [WEIGHT_DIVISOR]) (by norm_num [WEIGHT_DIVISOR])
  exact ⟨h.2.1, h.2.2.2.2⟩

/-! ## C10: self-similarity -/

theorem zip_self_eq_map {α : Type} (l : List α) : l.zip l = l.map (fun a => (a, a)) := by
  induction l with
  | nil => rfl
  | cons a t ih => simp [List.zip_cons_cons, ih]

/-- C10: for every non-empty genome `g`, `genome_similarity g g = 1`, so the
genetic-similarity sensor reads exactly 1 against an exact clone. -/
theorem genome_similarity_self (g : List ℕ) (h : g ≠ []) : genome_similarity g g = 1 := by
  unfold genome_similarity
  rw [if_neg (by simp [h])]
  rw [zip_self_eq_map]
  simp only [List.map_map]
  have hmap : (g.map ((fun p : ℕ × ℕ => 32 - pyBitCount (pyXor32 p.1 p.2)) ∘ fun a => (a, a)))
      = g.map (fun _ => 32) := by
    apply List.map_congr_left
    intro a _
    simp [pyXor32, pyBitCount, toInt32, countOnes]
  rw [hmap]
  have hsum : (g.map (fun _ => (32 : ℕ))).sum = 32 * g.length := by
    induction g with
    | nil => simp
    | cons a t ih => simp [ih]; ring
  rw [hsum, List.length_map]
  have hlen : g.length ≠ 0 := by simpa using h
  rw [if_pos (by positivity)]
  have : ((32 * g.length : ℕ) : ℚ) ≠ 0 := by
    exact_mod_cast Nat.mul_ne_zero (by norm_num) hlen
  exact div_self this

/-- Witness for C10 at the concrete genome `[5]`. -/
theorem genome_similarity_self_witness : genome_similarity [5] [5] = 1 :=
  genome_similarity_self [5] (by decide)

end EvoSim

